import Mathlib

/-!
Verification development for the PII classification engine of the
aws-textract-mask-pii repository.

The definitions below are a shallow embedding of
`src/backend/src/pii/detection.py` (class `PIIDetector`) and
`src/backend/src/masking/image.py` (method `ImageMasker.mask_image`).

Modelling conventions:
* Python dicts with a known key set become structures whose fields are
  `Option`-valued; hard indexing `d["k"]` is modelled by `getKey`, which
  returns an error (a KeyError) in the `Except String` monad when the key
  is absent, while `d.get("k", default)` is modelled by `Option.getD`.
* Python sets of strings become lists used only through membership.
* Python dict literals keyed by insertion order become association lists;
  assignment keeps the original position of an existing key (`dinsert`).
* The external `langdetect.detect` call (with `DetectorFactory.seed = 0`
  the call is deterministic) is abstracted as a parameter
  `dl : String -> Option String`, where `none` models a
  `LangDetectException`; `_detect_language` wraps it with the "en"
  default.
* Python `re.search` is modelled by a small executable regular-expression
  engine (`Reg`); only the truth of a search matters to the program, never
  the matched span, so the engine decides existence of a match.  Character
  classes are modelled on the character sets this program handles: the
  `\s`, `\d` and `\w` classes are the ASCII ones, `\w` extended with the
  Tamil and Devanagari blocks used by the per-language patterns.
* Numeric confidences and normalized box coordinates are modelled as `Rat`;
  Python `int(...)` truncation toward zero is `ratTrunc`.
-/

namespace PiiMask

/-! ## String and character utilities (Python semantics, ASCII fragment) -/

/-- The whitespace characters of Python `str.strip` / `\s`, ASCII fragment. -/
def pyIsSpace (c : Char) : Bool :=
  c == ' ' || c == '\t' || c == '\n' || c == '\r' || c == '\x0b' || c == '\x0c'

/-- Python `str.lower`, ASCII fragment (`Char.toLower` lowercases `A`-`Z`). -/
def pyLower (s : String) : String :=
  ⟨s.data.map Char.toLower⟩

/-- Python `str.strip()`: drop leading and trailing whitespace. -/
def pyStrip (s : String) : String :=
  ⟨((s.data.dropWhile pyIsSpace).reverse.dropWhile pyIsSpace).reverse⟩

/-- Substring containment on char lists: `needle` occurs inside `hay`. -/
def listContainsSub (needle hay : List Char) : Bool :=
  hay.tails.any (fun t => needle.isPrefixOf t)

/-- Python `needle in hay` on strings. -/
def pyInStr (needle hay : String) : Bool :=
  listContainsSub needle.data hay.data

/-- The `\d` class (ASCII digits). -/
def pyIsDigit (c : Char) : Bool :=
  decide ('0' ≤ c) && decide (c ≤ '9')

/-- `re.sub(r"\D", "", s)`: keep only digits. -/
def digitsOnly (s : String) : String :=
  ⟨s.data.filter pyIsDigit⟩

/-- Tamil block U+0B80 - U+0BFF. -/
def isTamil (c : Char) : Bool :=
  decide (0x0B80 ≤ c.toNat) && decide (c.toNat ≤ 0x0BFF)

/-- Devanagari block U+0900 - U+097F. -/
def isDevanagari (c : Char) : Bool :=
  decide (0x0900 ≤ c.toNat) && decide (c.toNat ≤ 0x097F)

/-- The `\w` class: ASCII alphanumerics and underscore, extended with the
Tamil and Devanagari blocks this program works with. -/
def pyIsWordChar (c : Char) : Bool :=
  c.isAlpha || pyIsDigit c || c == '_' || isTamil c || isDevanagari c

/-! ## A small regular-expression engine

`Reg` is the abstract syntax of the fragment of Python regexes used by
`PIIDetector.REGEX_PATTERNS`.  `Reg.search` decides whether `re.search`
finds a match (the program only ever uses the truth of `re.search`).
Anchors: `bol` is `^` (no `re.MULTILINE` is used, so start of string),
`eol` is `$` (end of string or just before a final newline), `wb` is `\b`. -/

inductive Reg where
  | eps
  | cls (p : Char → Bool)
  | seq (a b : Reg)
  | alt (a b : Reg)
  | star (a : Reg)
  | bol
  | eol
  | wb

/-- Is the optional character a word character (`none` = outside the string)? -/
def isWordOpt : Option Char → Bool
  | none => false
  | some c => pyIsWordChar c

/-- `\b` holds between the previous character and the head of the rest. -/
def wordBoundary (p : Option Char) (s : List Char) : Bool :=
  isWordOpt p != isWordOpt s.head?

/-- One nondeterministic step set: all states `(previous char, rest)` the
engine can be in after matching `r` from state `(p, s)`.  `fuel` bounds the
recursion depth; each `star` unfolding requires strict progress on the
string, so any fuel at least `(size + 2) * (length + 2) * (length + 2)` is
enough and further fuel does not change the result. -/
def runF (fuel : Nat) (r : Reg) (p : Option Char) (s : List Char) :
    List (Option Char × List Char) :=
  match fuel with
  | 0 => []
  | fuel + 1 =>
    match r with
    | .eps => [(p, s)]
    | .cls f =>
      match s with
      | [] => []
      | c :: rest => if f c then [(some c, rest)] else []
    | .alt a b => runF fuel a p s ++ runF fuel b p s
    | .seq a b => (runF fuel a p s).flatMap (fun st => runF fuel b st.1 st.2)
    | .bol => if p.isNone then [(p, s)] else []
    | .eol => if s.isEmpty || s == ['\n'] then [(p, s)] else []
    | .wb => if wordBoundary p s then [(p, s)] else []
    | .star a =>
      (p, s) ::
        ((runF fuel a p s).filter (fun st => st.2.length < s.length)).flatMap
          (fun st => runF fuel (.star a) st.1 st.2)

/-- A syntactic size for `Reg`, used only for the fuel bound. -/
def Reg.size : Reg → Nat
  | .eps | .bol | .eol | .wb => 1
  | .cls _ => 1
  | .seq a b | .alt a b => a.size + b.size + 1
  | .star a => a.size + 1

/-- Does `r` match starting at the state `(p, s)`? -/
def matchesAt (r : Reg) (p : Option Char) (s : List Char) : Bool :=
  !(runF ((r.size + 2) * (s.length + 2) * (s.length + 2)) r p s).isEmpty

/-- Try every start position, left to right. -/
def searchAux (r : Reg) (p : Option Char) (s : List Char) : Bool :=
  matchesAt r p s ||
    match s with
    | [] => false
    | c :: rest => searchAux r (some c) rest

/-- Python `re.search(r, s) is not None`. -/
def Reg.search (r : Reg) (s : String) : Bool :=
  searchAux r none s.data

/-! ### Pattern construction helpers -/

/-- One or more. -/
def Reg.plus (a : Reg) : Reg := .seq a (.star a)

/-- Zero or one. -/
def Reg.opt (a : Reg) : Reg := .alt a .eps

/-- Exactly `n` copies. -/
def Reg.repN : Nat → Reg → Reg
  | 0, _ => .eps
  | n + 1, a => .seq a (Reg.repN n a)

/-- `n` optional copies (used for counted repetition `{m,k}`). -/
def Reg.optN (n : Nat) (a : Reg) : Reg :=
  Reg.repN n a.opt

/-- A literal character. -/
def chr (c : Char) : Reg := .cls (fun x => x == c)

/-- A literal string. -/
def strR (s : String) : Reg :=
  s.data.foldr (fun c r => .seq (chr c) r) .eps

/-- Chained alternation (of a nonempty list; `[]` gives a never-matching class). -/
def altList : List Reg → Reg
  | [] => .cls (fun _ => false)
  | [r] => r
  | r :: rest => .alt r (altList rest)

def clsD : Reg := .cls pyIsDigit
def clsW : Reg := .cls pyIsWordChar
def clsS : Reg := .cls pyIsSpace
def clsAlpha : Reg := .cls Char.isAlpha
def clsTamil : Reg := .cls isTamil
def clsDeva : Reg := .cls isDevanagari

/-! ### The patterns of `PIIDetector.REGEX_PATTERNS` -/

/-- `^[A-Za-z]+(?:[\s-][A-Za-z]+)*$` -/
def nameEnPat : Reg :=
  .seq .bol (.seq clsAlpha.plus
    (.seq (.star (.seq (.cls (fun c => pyIsSpace c || c == '-')) clsAlpha.plus)) .eol))

/-- `^[஀-௿]+(?:[\s-][஀-௿]+)*$` -/
def nameTaPat : Reg :=
  .seq .bol (.seq clsTamil.plus
    (.seq (.star (.seq (.cls (fun c => pyIsSpace c || c == '-')) clsTamil.plus)) .eol))

/-- `^[ऀ-ॿ]+(?:[\s-][ऀ-ॿ]+)*$` -/
def nameHiPat : Reg :=
  .seq .bol (.seq clsDeva.plus
    (.seq (.star (.seq (.cls (fun c => pyIsSpace c || c == '-')) clsDeva.plus)) .eol))

/-- `^\d{1,5}\s\w+\s\w+` -/
def addressEnPat : Reg :=
  .seq .bol (.seq clsD (.seq (Reg.optN 4 clsD)
    (.seq clsS (.seq clsW.plus (.seq clsS clsW.plus)))))

/-- `^\d{1,5}\s[஀-௿]+` -/
def addressTaPat : Reg :=
  .seq .bol (.seq clsD (.seq (Reg.optN 4 clsD) (.seq clsS clsTamil.plus)))

/-- `^\d{1,5}\s[ऀ-ॿ]+` -/
def addressHiPat : Reg :=
  .seq .bol (.seq clsD (.seq (Reg.optN 4 clsD) (.seq clsS clsDeva.plus)))

/-- `\b[789]\d{9}\b|\b[0-9]{3}-[0-9]{3}-[0-9]{4}\b|\b[0-9]{10}\b` -/
def phonePat : Reg :=
  altList
    [ .seq .wb (.seq (.cls (fun c => c == '7' || c == '8' || c == '9'))
        (.seq (Reg.repN 9 clsD) .wb)),
      .seq .wb (.seq (Reg.repN 3 clsD) (.seq (chr '-') (.seq (Reg.repN 3 clsD)
        (.seq (chr '-') (.seq (Reg.repN 4 clsD) .wb))))),
      .seq .wb (.seq (Reg.repN 10 clsD) .wb) ]

/-- `[a-zA-Z0-9._%+-]+@[a-zA-Z0-9.-]+\.[A-Za-z]{2,}` -/
def emailPat : Reg :=
  .seq (Reg.plus (.cls (fun c =>
      c.isAlpha || pyIsDigit c || c == '.' || c == '_' || c == '%' || c == '+' || c == '-')))
    (.seq (chr '@')
      (.seq (Reg.plus (.cls (fun c => c.isAlpha || pyIsDigit c || c == '.' || c == '-')))
        (.seq (chr '.') (.seq clsAlpha (.seq clsAlpha (.star clsAlpha))))))

/-- `\b\d{4}\s?\d{4}\s?\d{4}\b|\b\d{12}\b` -/
def aadhaarPat : Reg :=
  .alt
    (.seq .wb (.seq (Reg.repN 4 clsD) (.seq clsS.opt (.seq (Reg.repN 4 clsD)
      (.seq clsS.opt (.seq (Reg.repN 4 clsD) .wb))))))
    (.seq .wb (.seq (Reg.repN 12 clsD) .wb))

/-- `\b\d{2}S\d{2}S\d{2,4}\b` where `S` abbreviates the two-character class
containing the dash and the forward slash, as in the source pattern. -/
def dobPat : Reg :=
  .seq .wb (.seq (Reg.repN 2 clsD) (.seq (.cls (fun c => c == '-' || c == '/'))
    (.seq (Reg.repN 2 clsD) (.seq (.cls (fun c => c == '-' || c == '/'))
      (.seq (Reg.repN 2 clsD) (.seq (Reg.optN 2 clsD) .wb))))))

/-- `(?:^|\s)(male|female|Male|Female|MALE|FEMALE)(?:\s|$)` -/
def genderEnPat : Reg :=
  .seq (.alt .bol clsS)
    (.seq (altList [strR "male", strR "female", strR "Male", strR "Female",
        strR "MALE", strR "FEMALE"])
      (.alt clsS .eol))

/-- `(?:^|\s)(ஆண்|பெண்)(?:\s|$)` -/
def genderTaPat : Reg :=
  .seq (.alt .bol clsS)
    (.seq (altList [strR "ஆண்", strR "பெண்"]) (.alt clsS .eol))

/-- `(?:^|\s)(पुरुष|महिला)(?:\s|$)` -/
def genderHiPat : Reg :=
  .seq (.alt .bol clsS)
    (.seq (altList [strR "पुरुष", strR "महिला"]) (.alt clsS .eol))

/-! ## Association lists with Python dict semantics -/

/-- First-match lookup, Python `d[k]` / `k in d` (as an `Option`). -/
def alookup {α : Type} (l : List (String × α)) (k : String) : Option α :=
  (l.find? (fun kv => kv.1 == k)).map (fun kv => kv.2)

/-- Python dict assignment `d[k] = v`: overwrite in place if the key exists
(keeping its position in insertion order), else append. -/
def dinsert {α : Type} (l : List (String × α)) (k : String) (v : α) :
    List (String × α) :=
  match l with
  | [] => [(k, v)]
  | (k0, v0) :: rest => if k0 = k then (k, v) :: rest else (k0, v0) :: dinsert rest k v

/-! ## The configuration tables of `PIIDetector` -/

/-- `PIIDetector.PII_KEY_MAPPING`: category, then per-language alias lists. -/
def PII_KEY_MAPPING : List (String × List (String × List String)) :=
  [ ("Name",
      [ ("en", ["name", "full name", "fullname", "given name"]),
        ("ta", ["பெயர்", "முழு பெயர்", "ஸ்ரீராம்", "மாமுண்டி"]),
        ("hi", ["नाम", "पूरा नाम"]) ]),
    ("Address",
      [ ("en", ["address", "addr", "permanent address"]),
        ("ta", ["முகவரி"]),
        ("hi", ["पता"]) ]),
    ("Phone Number",
      [ ("en", ["phone", "mobile", "telephone", "contact number"]),
        ("ta", ["தொலைபேசி", "மொபைல்"]),
        ("hi", ["फोन", "मोबाइल"]) ]),
    ("Email Address",
      [ ("en", ["email", "e-mail", "mail"]),
        ("ta", ["மின்னஞ்சல்"]),
        ("hi", ["ईमेल"]) ]),
    ("Aadhaar Number",
      [ ("en", ["aadhaar number", "uid", "aadhaar"]),
        ("ta", ["ஆதார் எண்"]),
        ("hi", ["आधार संख्या"]) ]),
    ("Date of Birth",
      [ ("en", ["dob", "date of birth", "birth date", "bdate"]),
        ("ta", ["பிறந்த தேதி"]),
        ("hi", ["जन्म तिथி"]) ]),
    ("Gender",
      [ ("en", ["gender", "sex", "Male", "Female", "male", "female", "MALE", "FEMALE"]),
        ("ta", ["பாலினம்", "ஆண்", "பெண்"]),
        ("hi", ["लिंग", "पुरुष", "महिला"]) ]) ]

/-- An entry of `PIIDetector.REGEX_PATTERNS`: either a single shared pattern
or a per-language dict of patterns. -/
inductive PatternEntry where
  | single (r : Reg)
  | byLang (entries : List (String × Reg))

/-- The per-language Gender patterns (shared between `REGEX_PATTERNS` and the
standalone-line cascade, which reads `REGEX_PATTERNS["Gender"]`). -/
def genderLangPats : List (String × Reg) :=
  [("en", genderEnPat), ("ta", genderTaPat), ("hi", genderHiPat)]

/-- The per-language Name patterns. -/
def nameLangPats : List (String × Reg) :=
  [("en", nameEnPat), ("ta", nameTaPat), ("hi", nameHiPat)]

/-- `PIIDetector.REGEX_PATTERNS`, in source (dict insertion) order. -/
def REGEX_PATTERNS : List (String × PatternEntry) :=
  [ ("Name", .byLang nameLangPats),
    ("Address", .byLang
      [("en", addressEnPat), ("ta", addressTaPat), ("hi", addressHiPat)]),
    ("Phone Number", .single phonePat),
    ("Email Address", .single emailPat),
    ("Aadhaar Number", .single aadhaarPat),
    ("Date of Birth", .single dobPat),
    ("Gender", .byLang genderLangPats) ]

/-- `pattern.get(lang, pattern.get("en", ""))` for a dict-valued pattern: the
empty default pattern matches everywhere, like `re.search("", s)`. -/
def patternFor (e : PatternEntry) (lang : String) : Reg :=
  match e with
  | .single r => r
  | .byLang es =>
    match alookup es lang with
    | some r => r
    | none => (alookup es "en").getD .eps

/-- `PIIDetector.NON_PII_BLACKLIST`. -/
def NON_PII_BLACKLIST : List (String × List String) :=
  [ ("en", ["government", "india", "ministry", "department", "authority", "office",
      "official", "public", "state", "national", "federal", "bureau", "agency",
      "registry", "certificate", "document", "form", "application", "issued",
      "valid", "expired", "signature", "seal", "aadhaar", "colony", "space"]),
    ("ta", ["அரசு", "இந்தியா", "துறை", "அதிகாரம்", "அலுவலகம்", "பொது", "மாநில",
      "தேசிய", "ஆணை", "சான்றிதழ்", "ஆவணம்", "விண்ணப்பம்", "வழங்கப்பட்டது",
      "செல்லுபடியாகும்", "காலாவதியானது", "கையொப்பம்", "முத்திரை", "ஆதார்",
      "காலனி", "விண்வெளி"]),
    ("hi", ["सरकार", "भारत", "मंत्रालय", "विभाग", "प्राधिकरण", "कार्यालय", "आधिकारिक",
      "सार्वजनिक", "राज्य", "राष्ट्रीय", "संघीय", "ब्यूरो", "एजेंसी", "रजिस्ट्री",
      "प्रमाणपत्र", "दस्तावेज़", "फॉर्म", "आवेदन", "जारी", "मान्य", "समाप्त",
      "हस्ताक्षर", "मुहर", "आधार", "कॉलोनी", "अंतरिक्ष", "भारत सरकार"]) ]

/-! ## The data model: Textract blocks, Tesseract lines, PII fields -/

/-- A normalized bounding-box dict (`Geometry.BoundingBox` or a Tesseract
`bounding_box`); each coordinate key may be absent. -/
structure BBox where
  left : Option Rat
  top : Option Rat
  width : Option Rat
  height : Option Rat
deriving DecidableEq

/-- The empty dict `{}`. -/
def BBox.empty : BBox := ⟨none, none, none, none⟩

/-- One entry of a `Relationships` list. -/
structure Rel where
  rtype : Option String
  ids : Option (List String)
deriving DecidableEq

/-- A Textract block dict.  `geometry` collapses the two-level access
`block.get("Geometry", {}).get("BoundingBox", {})` into one optional
bounding box. -/
structure Block where
  id : Option String
  blockType : Option String
  text : Option String
  entityTypes : Option (List String)
  geometry : Option BBox
  confidence : Option Rat
  relationships : Option (List Rel)
deriving DecidableEq

/-- A Tesseract line dict `{text, bounding_box, confidence}`. -/
structure TessLine where
  text : Option String
  boundingBox : Option BBox
  confidence : Option Rat
deriving DecidableEq

/-- The value record stored for a `VALUE` block:
`{text, bounding_box, confidence}`. -/
structure ValueRecord where
  text : String
  boundingBox : BBox
  confidence : Rat
deriving DecidableEq

/-- An output PII field `{type, value, bounding_box, confidence}`. -/
structure PiiField where
  type : String
  value : String
  boundingBox : BBox
  confidence : Rat
deriving DecidableEq

/-- Python hard dict indexing `d[name]`: `KeyError` when the key is absent. -/
def getKey {α : Type} (name : String) : Option α → Except String α
  | some a => .ok a
  | none => .error ("KeyError: " ++ name)

/-! ## `PIIDetector._get_block_text` -/

/-- Innermost loop of `_get_block_text`: scan all blocks for ones whose `Id`
equals `childId` and whose `BlockType` is `WORD`, appending their `Text`
plus a space to the accumulator. -/
def wordTextFold (childId : String) : List Block → String → Except String String
  | [], acc => .ok acc
  | b :: rest, acc => do
    let bid ← getKey "Id" b.id
    if bid = childId then do
      let bt ← getKey "BlockType" b.blockType
      if bt = "WORD" then do
        let btext ← getKey "Text" b.text
        wordTextFold childId rest (acc ++ btext ++ " ")
      else
        wordTextFold childId rest acc
    else
      wordTextFold childId rest acc

/-- Middle loop of `_get_block_text`: over the ids of one `CHILD` relation. -/
def childIdsFold (allBlocks : List Block) : List String → String → Except String String
  | [], acc => .ok acc
  | cid :: rest, acc => do
    let acc2 ← wordTextFold cid allBlocks acc
    childIdsFold allBlocks rest acc2

/-- Outer loop of `_get_block_text`: over the relationships of the block;
`rel["Ids"]` is read only when `rel["Type"] == "CHILD"`. -/
def relsFold (allBlocks : List Block) : List Rel → String → Except String String
  | [], acc => .ok acc
  | rel :: rest, acc => do
    let rt ← getKey "Type" rel.rtype
    if rt = "CHILD" then do
      let ids ← getKey "Ids" rel.ids
      let acc2 ← childIdsFold allBlocks ids acc
      relsFold allBlocks rest acc2
    else
      relsFold allBlocks rest acc

/-- `PIIDetector._get_block_text(block, all_blocks)`. -/
def getBlockText (block : Block) (allBlocks : List Block) : Except String String :=
  match block.relationships with
  | none => .ok (pyStrip "")
  | some rels => do
    let t ← relsFold allBlocks rels ""
    .ok (pyStrip t)

/-! ## `PIIDetector._extract_key_value_pairs` -/

/-- First loop of `_extract_key_value_pairs`: build the `Id -> key text` and
`Id -> value record` tables.  `EntityTypes` is read only for
`KEY_VALUE_SET` blocks; the block text is resolved before `Id` is read,
matching the statement order of the source. -/
def extractLoop1 (allBlocks : List Block) :
    List Block → List (String × String) → List (String × ValueRecord) →
    Except String (List (String × String) × List (String × ValueRecord))
  | [], keys, values => .ok (keys, values)
  | b :: rest, keys, values => do
    let bt ← getKey "BlockType" b.blockType
    if bt = "KEY_VALUE_SET" then do
      let ets ← getKey "EntityTypes" b.entityTypes
      if ets.contains "KEY" then do
        let ktext ← getBlockText b allBlocks
        let bid ← getKey "Id" b.id
        extractLoop1 allBlocks rest (dinsert keys bid (pyLower ktext)) values
      else if ets.contains "VALUE" then do
        let vtext ← getBlockText b allBlocks
        let bid ← getKey "Id" b.id
        extractLoop1 allBlocks rest keys
          (dinsert values bid ⟨vtext, b.geometry.getD BBox.empty, b.confidence.getD 0⟩)
      else
        extractLoop1 allBlocks rest keys values
    else
      extractLoop1 allBlocks rest keys values

/-- Innermost loop of the second phase: over the ids of one `VALUE`
relation; each id present in the value table performs the dict assignment
`pairs[keys.get(block["Id"], "")] = values[value_id]` (reading `block["Id"]`
at that point, as the source does). -/
def loop2Ids (keys : List (String × String)) (values : List (String × ValueRecord))
    (b : Block) :
    List String → List (String × ValueRecord) → Except String (List (String × ValueRecord))
  | [], pairs => .ok pairs
  | vid :: rest, pairs =>
    match alookup values vid with
    | some v => do
      let bid ← getKey "Id" b.id
      loop2Ids keys values b rest (dinsert pairs ((alookup keys bid).getD "") v)
    | none => loop2Ids keys values b rest pairs

/-- Second-phase loop over the relationships of one `KEY` block. -/
def loop2Rels (keys : List (String × String)) (values : List (String × ValueRecord))
    (b : Block) :
    List Rel → List (String × ValueRecord) → Except String (List (String × ValueRecord))
  | [], pairs => .ok pairs
  | rel :: rest, pairs => do
    let rt ← getKey "Type" rel.rtype
    if rt = "VALUE" then do
      let ids ← getKey "Ids" rel.ids
      let pairs2 ← loop2Ids keys values b ids pairs
      loop2Rels keys values b rest pairs2
    else
      loop2Rels keys values b rest pairs

/-- Second loop of `_extract_key_value_pairs`: over all blocks, handling
`KEY_VALUE_SET` blocks with `KEY` entity type and a `Relationships` key. -/
def extractLoop2 (keys : List (String × String)) (values : List (String × ValueRecord)) :
    List Block → List (String × ValueRecord) → Except String (List (String × ValueRecord))
  | [], pairs => .ok pairs
  | b :: rest, pairs => do
    let bt ← getKey "BlockType" b.blockType
    if bt = "KEY_VALUE_SET" then do
      let ets ← getKey "EntityTypes" b.entityTypes
      if ets.contains "KEY" then
        match b.relationships with
        | some rels => do
          let pairs2 ← loop2Rels keys values b rels pairs
          extractLoop2 keys values rest pairs2
        | none => extractLoop2 keys values rest pairs
      else
        extractLoop2 keys values rest pairs
    else
      extractLoop2 keys values rest pairs

/-- `PIIDetector._extract_key_value_pairs(blocks)`. -/
def extractKeyValuePairs (blocks : List Block) :
    Except String (List (String × ValueRecord)) := do
  let kv ← extractLoop1 blocks blocks [] []
  extractLoop2 kv.1 kv.2 blocks []

/-! ## Classification helpers -/

/-- `PIIDetector._detect_language`: the abstracted `langdetect.detect` with
the `"en"` default on failure. -/
def detectLanguage (dl : String → Option String) (text : String) : String :=
  (dl text).getD "en"

/-- `PIIDetector._map_to_pii_type(key)`: the first category one of whose
aliases, lowercased and stripped, equals the key exactly. -/
def mapToPiiType (key : String) : Option String :=
  (PII_KEY_MAPPING.find? (fun entry =>
    entry.2.any (fun la => la.2.any (fun al => pyStrip (pyLower al) == key)))).map
    (fun entry => entry.1)

/-- `PIIDetector._is_non_pii(text)`: the detected language has a blacklist
and some blacklisted word occurs, lowercased, inside the lowercased text. -/
def isNonPii (dl : String → Option String) (text : String) : Bool :=
  match alookup NON_PII_BLACKLIST (detectLanguage dl text) with
  | some words => words.any (fun w => pyInStr (pyLower w) (pyLower text))
  | none => false

/-- `PIIDetector._build_field(pii_type, value)`. -/
def buildField (piiType : String) (v : ValueRecord) : PiiField :=
  ⟨piiType, v.text, v.boundingBox, v.confidence⟩

/-- `re.sub(r"[:\s]+$", "", s)`: drop the trailing run of colons/whitespace. -/
def stripTrailingColonSpace (s : String) : String :=
  ⟨(s.data.reverse.dropWhile (fun c => c == ':' || pyIsSpace c)).reverse⟩

/-- Key normalization of Pass 1: `re.sub(r"[:\s]+$", "", key.lower().strip())`. -/
def normalizeKey (key : String) : String :=
  stripTrailingColonSpace (pyStrip (pyLower key))

/-- `cleaned[0] in "789"` (guarded by a length check in the source). -/
def leading789 (s : String) : Bool :=
  match s.data with
  | [] => false
  | c :: _ => c == '7' || c == '8' || c == '9'

/-- The standalone-line classification cascade shared verbatim by Pass 3
(lines 117-131 of `detection.py`) and Pass 4 (lines 148-162). -/
def classifyStandalone (dl : String → Option String) (text : String) : Option String :=
  let lang := detectLanguage dl text
  let cleaned := digitsOnly text
  if cleaned.length = 10 && leading789 cleaned then some "Phone Number"
  else if aadhaarPat.search text then some "Aadhaar Number"
  else if emailPat.search text then some "Email Address"
  else if dobPat.search text then some "Date of Birth"
  else if ((alookup genderLangPats lang).getD genderEnPat).search text then some "Gender"
  else if ((alookup nameLangPats lang).getD nameEnPat).search text then some "Name"
  else none

/-! ## The four passes of `PIIDetector.detect_pii` -/

/-- Pass 1: key-alias detection over the key-value pairs. -/
def pass1 (dl : String → Option String) :
    List (String × ValueRecord) → List PiiField → List String →
    List PiiField × List String
  | [], fields, seen => (fields, seen)
  | (key, value) :: rest, fields, seen =>
    match mapToPiiType (normalizeKey key) with
    | some piiType =>
      if value.text ∉ seen ∧ isNonPii dl value.text = false then
        pass1 dl rest (fields ++ [buildField piiType value]) (value.text :: seen)
      else
        pass1 dl rest fields seen
    | none => pass1 dl rest fields seen

/-- Pass 2: the first regex category (in `REGEX_PATTERNS` order) matching
the stripped value text, with the per-language pattern chosen by the
detected language of the raw value text. -/
def firstRegexMatch (lang : String) (stripped : String) : Option String :=
  (REGEX_PATTERNS.find? (fun p => (patternFor p.2 lang).search stripped)).map
    (fun p => p.1)

/-- Pass 2: regex fallback over the key-value pairs. -/
def pass2 (dl : String → Option String) :
    List (String × ValueRecord) → List PiiField → List String →
    List PiiField × List String
  | [], fields, seen => (fields, seen)
  | (_, value) :: rest, fields, seen =>
    if value.text ∈ seen ∨ isNonPii dl value.text = true then
      pass2 dl rest fields seen
    else
      match firstRegexMatch (detectLanguage dl value.text) (pyStrip value.text) with
      | some piiType =>
        pass2 dl rest (fields ++ [buildField piiType value]) (value.text :: seen)
      | none => pass2 dl rest fields seen

/-- Pass 3: standalone `LINE` blocks from Textract. -/
def pass3 (dl : String → Option String) :
    List Block → List PiiField → List String → List PiiField × List String
  | [], fields, seen => (fields, seen)
  | block :: rest, fields, seen =>
    if block.blockType = some "LINE" ∧ pyStrip (block.text.getD "") ≠ "" then
      let text := pyStrip (block.text.getD "")
      if text ∈ seen ∨ isNonPii dl text = true then
        pass3 dl rest fields seen
      else
        match classifyStandalone dl text with
        | some piiType =>
          pass3 dl rest
            (fields ++ [⟨piiType, text, block.geometry.getD BBox.empty, block.confidence.getD 0⟩])
            (text :: seen)
        | none => pass3 dl rest fields seen
    else
      pass3 dl rest fields seen

/-- The hybrid geometry fallback of Pass 4 (lines 165-172 of the source):
take the geometry and confidence of the first Textract `LINE` block whose
stripped text equals the line text, falling back per key. -/
def tesseractLineGeom (textractBlocks : List Block) (text : String)
    (bb : BBox) (conf : Rat) : BBox × Rat :=
  match textractBlocks.find? (fun b =>
      b.blockType == some "LINE" && pyStrip (b.text.getD "") == text) with
  | some b => (b.geometry.getD bb, b.confidence.getD conf)
  | none => (bb, conf)

/-- Pass 4: Tesseract lines with the hybrid fallback; `line["text"]` is hard
indexing and may raise. -/
def pass4 (dl : String → Option String) (textractBlocks : List Block) :
    List TessLine → List PiiField → List String →
    Except String (List PiiField × List String)
  | [], fields, seen => .ok (fields, seen)
  | line :: rest, fields, seen => do
    let ltext ← getKey "text" line.text
    let text := pyStrip ltext
    if text = "" ∨ text ∈ seen ∨ isNonPii dl text = true then
      pass4 dl textractBlocks rest fields seen
    else
      match classifyStandalone dl text with
      | some piiType =>
        let g := tesseractLineGeom textractBlocks text
          (line.boundingBox.getD BBox.empty) (line.confidence.getD 0)
        pass4 dl textractBlocks rest (fields ++ [⟨piiType, text, g.1, g.2⟩]) (text :: seen)
      | none => pass4 dl textractBlocks rest fields seen

/-- `PIIDetector.detect_pii(textract_blocks, tesseract_lines)`. -/
def detectPii (dl : String → Option String) (textractBlocks : List Block)
    (tesseractLines : List TessLine) : Except String (List PiiField) := do
  let keyValuePairs ← extractKeyValuePairs textractBlocks
  let st1 := pass1 dl keyValuePairs [] []
  let st2 := pass2 dl keyValuePairs st1.1 st1.2
  let st3 := pass3 dl textractBlocks st2.1 st2.2
  let st4 ← pass4 dl textractBlocks tesseractLines st3.1 st3.2
  .ok st4.1

/-! ## `ImageMasker.mask_image`: the bounding-box rectifier -/

/-- Python `int(q)`: truncation toward zero. -/
def ratTrunc (q : Rat) : Int :=
  Int.tdiv q.num q.den

/-- `int(q * n)` as exact integer arithmetic: the product `q * n` equals
`(q.num * n) / q.den` as a rational, so truncating toward zero gives
`Int.tdiv (q.num * n) q.den` (the source multiplies a float by the pixel
size and truncates with `int`; the rational model is exact). -/
def scaleTrunc (q : Rat) (n : Int) : Int :=
  Int.tdiv (q.num * n) q.den

/-- A pixel rectangle. -/
structure MaskRect where
  x : Int
  y : Int
  w : Int
  h : Int
deriving DecidableEq

/-- The per-field body of the `mask_image` loop: `none` when the field is
skipped (missing/incomplete box, invalid coordinates, or — in blur mode —
an empty region of interest), else the rectified pixel rectangle. -/
def fieldRect (maskType : String) (width height : Int) (field : PiiField) :
    Option MaskRect :=
  match field.boundingBox.left, field.boundingBox.top,
      field.boundingBox.width, field.boundingBox.height with
  | some l, some t, some bw, some bh =>
    let x := scaleTrunc l width
    let y := scaleTrunc t height
    let w := scaleTrunc bw width
    let h := scaleTrunc bh height
    if x < 0 ∨ y < 0 ∨ w ≤ 0 ∨ h ≤ 0 ∨ x + w > width ∨ y + h > height then none
    else if maskType = "blur" ∧ (min (y + h) height - y ≤ 0 ∨ min (x + w) width - x ≤ 0) then
      none
    else some ⟨x, y, w, h⟩
  | _, _, _, _ => none

/-- The rectangles actually masked by `mask_image` on a `width x height`
image, in field order. -/
def maskImage (maskType : String) (width height : Int) (fields : List PiiField) :
    List MaskRect :=
  fields.filterMap (fieldRect maskType width height)

/-! ## Specification-side definitions used by individual claims -/

/-- The standalone-line cascade as the amended specification words it:
a digit-only projection of exactly 10 digits starting with 7, 8 or 9 gives
Phone Number; otherwise the national-ID regex, the email regex, the
date-of-birth regex, the language-aware gender regex and the language-aware
name regex are tried on the raw text in that order and the first match
wins.  To be compared with `classifyStandalone`, the cascade translated
from the source. -/
def standaloneCascadeSpec (dl : String → Option String) (text : String) : Option String :=
  let lang := detectLanguage dl text
  let projection := digitsOnly text
  if projection.length = 10 && leading789 projection then some "Phone Number"
  else if aadhaarPat.search text then some "Aadhaar Number"
  else if emailPat.search text then some "Email Address"
  else if dobPat.search text then some "Date of Birth"
  else if ((alookup genderLangPats lang).getD genderEnPat).search text then some "Gender"
  else if ((alookup nameLangPats lang).getD nameEnPat).search text then some "Name"
  else none

/-- Well-formedness of one relationship dict: both keys present. -/
def RelWF (r : Rel) : Prop :=
  r.rtype.isSome = true ∧ r.ids.isSome = true

/-- The structural keys `detect_pii` reads unconditionally or under the
guards of the source: their presence rules out every `KeyError`. -/
def BlockWF (b : Block) : Prop :=
  b.id.isSome = true ∧ b.blockType.isSome = true ∧
  (b.blockType = some "KEY_VALUE_SET" → b.entityTypes.isSome = true) ∧
  (b.blockType = some "WORD" → b.text.isSome = true) ∧
  (∀ r ∈ b.relationships.getD [], RelWF r)

/-- Well-formedness of a whole Textract block list. -/
def BlocksWF (blocks : List Block) : Prop :=
  ∀ b ∈ blocks, BlockWF b

/-- Well-formedness of a Tesseract line list: the `text` key is present. -/
def LinesWF (lines : List TessLine) : Prop :=
  ∀ l ∈ lines, l.text.isSome = true

instance (r : Rel) : Decidable (RelWF r) := by
  unfold RelWF; infer_instance

instance (b : Block) : Decidable (BlockWF b) := by
  unfold BlockWF; infer_instance

instance (blocks : List Block) : Decidable (BlocksWF blocks) := by
  unfold BlocksWF; infer_instance

instance (lines : List TessLine) : Decidable (LinesWF lines) := by
  unfold LinesWF; infer_instance

/-- The sequence of dict assignments the second extraction loop performs
for one `KEY` block, in order (spec view of the loop body: each resolvable
value id writes `values[value_id]` under `keys.get(block["Id"], "")`). -/
def blockWrites (keys : List (String × String)) (values : List (String × ValueRecord))
    (b : Block) : List (String × ValueRecord) :=
  if b.blockType = some "KEY_VALUE_SET" ∧ (b.entityTypes.getD []).contains "KEY" = true then
    (b.relationships.getD []).flatMap (fun rel =>
      if rel.rtype = some "VALUE" then
        (rel.ids.getD []).filterMap (fun vid =>
          (alookup values vid).map
            (fun v => ((alookup keys (b.id.getD "")).getD "", v)))
      else [])
  else []

/-- All assignments of the second extraction loop, in source order. -/
def allWrites (keys : List (String × String)) (values : List (String × ValueRecord))
    (blocks : List Block) : List (String × ValueRecord) :=
  blocks.flatMap (blockWrites keys values)

/-- The last assignment to key `k` in a write sequence, if any. -/
def lastWrite (ws : List (String × ValueRecord)) (k : String) : Option ValueRecord :=
  match ws with
  | [] => none
  | w :: rest =>
    match lastWrite rest k with
    | some v => some v
    | none => if w.1 = k then some w.2 else none

/-- Every alias of the key-mapping table, across categories and languages. -/
def allAliases : List String :=
  PII_KEY_MAPPING.flatMap (fun entry => entry.2.flatMap (fun la => la.2))

/-- Block `block` has no `CHILD` relation resolving to a `WORD` block of
`blocks`. -/
def NoChildWord (block : Block) (blocks : List Block) : Prop :=
  ∀ rel ∈ block.relationships.getD [], rel.rtype = some "CHILD" →
    ∀ cid ∈ rel.ids.getD [], ∀ b ∈ blocks, b.id = some cid →
      b.blockType ≠ some "WORD"

instance (block : Block) (blocks : List Block) : Decidable (NoChildWord block blocks) := by
  unfold NoChildWord; infer_instance

/-! ## Invariant machinery shared by the pass lemmas -/

/-- What one pass does to the `(pii_fields, seen_values)` accumulator: it
appends a block `rest` of new fields, only grows `seen`, every new field's
value was unseen on entry, is seen on exit and satisfies the per-pass
provenance `Prov`, everything newly seen is the value of a new field, and
the new values are pairwise distinct. -/
def PassStep (fields : List PiiField) (seen : List String)
    (fields2 : List PiiField) (seen2 : List String) (Prov : PiiField → Prop) : Prop :=
  ∃ rest, fields2 = fields ++ rest ∧
    (∀ x ∈ seen, x ∈ seen2) ∧
    (∀ f ∈ rest, f.value ∉ seen ∧ f.value ∈ seen2 ∧ Prov f) ∧
    (∀ x ∈ seen2, x ∈ seen ∨ ∃ f ∈ rest, f.value = x) ∧
    (rest.map PiiField.value).Nodup

/-- Provenance of a Pass-1 field: it was built from a key-value pair whose
normalized key maps to its category, and its value is not blacklisted. -/
def Prov1 (dl : String → Option String) (pairs : List (String × ValueRecord))
    (f : PiiField) : Prop :=
  isNonPii dl f.value = false ∧
  ∃ k v, (k, v) ∈ pairs ∧ mapToPiiType (normalizeKey k) = some f.type ∧
    f = buildField f.type v

/-- Provenance used for Passes 2-4: the emitted value is not blacklisted. -/
def ProvNotBl (dl : String → Option String) (f : PiiField) : Prop :=
  isNonPii dl f.value = false

/-- The loop invariant behind the dedup claim: emitted value texts are
pairwise distinct and all recorded in `seen_values`. -/
def Inv (fields : List PiiField) (seen : List String) : Prop :=
  (fields.map PiiField.value).Nodup ∧ ∀ f ∈ fields, f.value ∈ seen

/-! ## Concrete inputs used by witnesses and counterexamples -/

/-- A deterministic stand-in for the external language detector that always
fails, so `_detect_language` falls back to `"en"`. -/
def dl0 : String → Option String := fun _ => none

/-- A Textract `LINE` block carrying only a text. -/
def mkLine (t : String) : Block :=
  ⟨none, some "LINE", some t, none, none, none, none⟩

/-- A Textract `WORD` block with id `i` and text `t`. -/
def mkWord (i t : String) : Block :=
  ⟨some i, some "WORD", some t, none, none, none, none⟩

/-- The all-missing block `{}`. -/
def emptyBlock : Block := ⟨none, none, none, none, none, none, none⟩

/-- Scenario A: a `KEY` block whose child word is `Name`, linked to value
`v1`. -/
def blockKeyName : Block :=
  ⟨some "k1", some "KEY_VALUE_SET", none, some ["KEY"], none, none,
    some [⟨some "CHILD", some ["w1"]⟩, ⟨some "VALUE", some ["v1"]⟩]⟩

/-- Scenario A: the geometry of the value block. -/
def bbJohn : BBox := ⟨some (1/10), some (1/10), some (2/10), some (1/10)⟩

/-- Scenario A: a `VALUE` block whose child words are `John`, `Doe`. -/
def blockValueJohn : Block :=
  ⟨some "v1", some "KEY_VALUE_SET", none, some ["VALUE"], some bbJohn, some 99,
    some [⟨some "CHILD", some ["w3", "w4"]⟩]⟩

/-- Scenario A: the full block list for the pair `name -> John Doe`. -/
def blocksName : List Block :=
  [blockKeyName, blockValueJohn, mkWord "w1" "Name", mkWord "w3" "John", mkWord "w4" "Doe"]

/-- Scenario A: the extracted value record. -/
def vrJohn : ValueRecord := ⟨"John Doe", bbJohn, 99⟩

/-- Scenario D: the Tesseract-side geometry of the email line. -/
def bbJane : BBox := ⟨some (3/10), some (4/10), some (2/10), some (1/20)⟩

/-- Scenario D: a Tesseract line with its own geometry and confidence. -/
def tessJane : TessLine := ⟨some "jane@example.com", some bbJane, some 55⟩

/-- A Textract `LINE` block with geometry, for the hybrid override. -/
def bbPrimary : BBox := ⟨some (9/10), some (9/10), some (1/20), some (1/20)⟩

/-- A primary `LINE` block whose text matches `tessJane`. -/
def blockLineJane : Block :=
  ⟨none, some "LINE", some "jane@example.com", none, some bbPrimary, some 97, none⟩

/-- C10: a `KEY` block with no child words, linked to value `v1`. -/
def blockKeyBare1 : Block :=
  ⟨some "k1", some "KEY_VALUE_SET", none, some ["KEY"], none, none,
    some [⟨some "VALUE", some ["v1"]⟩]⟩

/-- C10: a second `KEY` block with no child words, linked to value `v2`. -/
def blockKeyBare2 : Block :=
  ⟨some "k2", some "KEY_VALUE_SET", none, some ["KEY"], none, none,
    some [⟨some "VALUE", some ["v2"]⟩]⟩

/-- C10: the first value block (`first@ex.com`). -/
def blockValue1 : Block :=
  ⟨some "v1", some "KEY_VALUE_SET", none, some ["VALUE"], none, some 70,
    some [⟨some "CHILD", some ["w1"]⟩]⟩

/-- C10: geometry of the second value block. -/
def bbV2 : BBox := ⟨some (5/10), some (6/10), some (1/10), some (1/20)⟩

/-- C10: the second value block (`a@b.com`). -/
def blockValue2 : Block :=
  ⟨some "v2", some "KEY_VALUE_SET", none, some ["VALUE"], some bbV2, some 88,
    some [⟨some "CHILD", some ["w2"]⟩]⟩

/-- C10: two keyless `KEY` blocks whose pairs collapse onto the key `""`. -/
def blocksBareKeys : List Block :=
  [blockKeyBare1, blockKeyBare2, blockValue1, blockValue2,
    mkWord "w1" "first@ex.com", mkWord "w2" "a@b.com"]

/-- C10: the surviving (last-written) value record. -/
def vrAB : ValueRecord := ⟨"a@b.com", bbV2, 88⟩

/-- C8 witness: a `KEY` block `name -> v1`. -/
def blockKeyDup1 : Block :=
  ⟨some "k1", some "KEY_VALUE_SET", none, some ["KEY"], none, none,
    some [⟨some "CHILD", some ["w1"]⟩, ⟨some "VALUE", some ["v1"]⟩]⟩

/-- C8 witness: a second `KEY` block also resolving to `name`, linked to
`v2`. -/
def blockKeyDup2 : Block :=
  ⟨some "k2", some "KEY_VALUE_SET", none, some ["KEY"], none, none,
    some [⟨some "CHILD", some ["w2"]⟩, ⟨some "VALUE", some ["v2"]⟩]⟩

/-- C8 witness: first value block (`Alice`). -/
def blockValueAlice : Block :=
  ⟨some "v1", some "KEY_VALUE_SET", none, some ["VALUE"], none, some 50,
    some [⟨some "CHILD", some ["w3"]⟩]⟩

/-- C8 witness: second value block (`Bob`). -/
def blockValueBob : Block :=
  ⟨some "v2", some "KEY_VALUE_SET", none, some ["VALUE"], none, some 60,
    some [⟨some "CHILD", some ["w4"]⟩]⟩

/-- C8 witness: two `KEY` blocks normalizing to the same key text `name`. -/
def blocksDupKeys : List Block :=
  [blockKeyDup1, blockKeyDup2, blockValueAlice, blockValueBob,
    mkWord "w1" "Name", mkWord "w2" "NAME", mkWord "w3" "Alice", mkWord "w4" "Bob"]

/-- C8 witness: the value record written last for key `name`. -/
def vrBob : ValueRecord := ⟨"Bob", BBox.empty, 60⟩

/-- One half, in the kernel-reducible constructor form of `Rat`. -/
def half : Rat := ⟨1, 2, by decide, by decide⟩

/-- One tenth. -/
def tenth : Rat := ⟨1, 10, by decide, by decide⟩

/-- Three fifths (`0.6`). -/
def threeFifths : Rat := ⟨3, 5, by decide, by decide⟩

/-- One fifth (`0.2`). -/
def fifth : Rat := ⟨1, 5, by decide, by decide⟩

/-- Three tenths. -/
def threeTenths : Rat := ⟨3, 10, by decide, by decide⟩

/-- C7 witness data: Scenario F box `{0.5, 0.5, 0.6, 0.1}`. -/
def fieldScenF : PiiField :=
  ⟨"Name", "x", ⟨some half, some half, some threeFifths, some tenth⟩, 0⟩

/-- C7 witness data: a field whose box has `Width = 0`. -/
def fieldZeroW : PiiField :=
  ⟨"Name", "z", ⟨some tenth, some tenth, some 0, some tenth⟩, 0⟩

/-- C7 witness data: two valid fields around the rejected one. -/
def fieldOkA : PiiField :=
  ⟨"Name", "a", ⟨some tenth, some tenth, some fifth, some tenth⟩, 0⟩

/-- See `fieldOkA`. -/
def fieldOkB : PiiField :=
  ⟨"Name", "b", ⟨some threeTenths, some tenth, some fifth, some tenth⟩, 0⟩

/-! ## Basic lemmas -/

@[simp]
theorem getKey_some {α : Type} (name : String) (a : α) :
    getKey name (some a) = .ok a := rfl

@[simp]
theorem getKey_none {α : Type} (name : String) :
    getKey name (none : Option α) = .error ("KeyError: " ++ name) := rfl

@[simp]
theorem ok_bind {α β : Type} (a : α) (f : α → Except String β) :
    (Except.ok a >>= f) = f a := rfl

@[simp]
theorem error_bind {α β : Type} (e : String) (f : α → Except String β) :
    ((Except.error e : Except String α) >>= f) = .error e := rfl

@[simp]
theorem error_ne_ok {α : Type} (e : String) (a : α) :
    ((Except.error e : Except String α) = .ok a) ↔ False := by
  simp

theorem pyStrip_empty : pyStrip "" = "" := rfl

/-! ## The `PassStep` machinery -/

theorem passStep_refl (fields : List PiiField) (seen : List String)
    (Prov : PiiField → Prop) : PassStep fields seen fields seen Prov := by
  refine ⟨[], by simp, fun x hx => hx, by simp, fun x hx => .inl hx, by simp⟩

theorem passStep_weaken {fields seen F2 S2 : _} {P Q : PiiField → Prop}
    (hPQ : ∀ f, P f → Q f) (h : PassStep fields seen F2 S2 P) :
    PassStep fields seen F2 S2 Q := by
  obtain ⟨rest, hF, hmono, hnew, hseen, hnd⟩ := h
  exact ⟨rest, hF, hmono,
    fun f hf => ⟨(hnew f hf).1, (hnew f hf).2.1, hPQ f (hnew f hf).2.2⟩, hseen, hnd⟩

theorem passStep_emit {fields seen F2 S2 : _} {Prov : PiiField → Prop} (f0 : PiiField)
    (h0 : f0.value ∉ seen) (hp : Prov f0)
    (h : PassStep (fields ++ [f0]) (f0.value :: seen) F2 S2 Prov) :
    PassStep fields seen F2 S2 Prov := by
  obtain ⟨rest, hF, hmono, hnew, hseen, hnd⟩ := h
  refine ⟨f0 :: rest, by rw [hF]; simp, ?_, ?_, ?_, ?_⟩
  · intro x hx; exact hmono x (List.mem_cons_of_mem _ hx)
  · intro f hf
    rcases List.mem_cons.mp hf with rfl | hf2
    · exact ⟨h0, hmono _ (List.mem_cons_self _ _), hp⟩
    · obtain ⟨ha, hb, hc⟩ := hnew f hf2
      exact ⟨fun hmem => ha (List.mem_cons_of_mem _ hmem), hb, hc⟩
  · intro x hx
    rcases hseen x hx with hx2 | ⟨f, hf, hfv⟩
    · rcases List.mem_cons.mp hx2 with rfl | hx3
      · exact .inr ⟨f0, List.mem_cons_self _ _, rfl⟩
      · exact .inl hx3
    · exact .inr ⟨f, List.mem_cons_of_mem _ hf, hfv⟩
  · simp only [List.map_cons]
    refine List.nodup_cons.mpr ⟨?_, hnd⟩
    intro hmem
    obtain ⟨f, hf, hfv⟩ := List.mem_map.mp hmem
    exact (hnew f hf).1 (hfv ▸ List.mem_cons_self _ _)

theorem inv_step {fields seen F2 S2 : _} {P : PiiField → Prop}
    (hinv : Inv fields seen) (h : PassStep fields seen F2 S2 P) : Inv F2 S2 := by
  obtain ⟨rest, hF, hmono, hnew, _, hnd⟩ := h
  obtain ⟨hnodup, hsub⟩ := hinv
  subst hF
  constructor
  · rw [List.map_append, List.nodup_append]
    refine ⟨hnodup, hnd, ?_⟩
    intro x hx hy
    obtain ⟨f, hf, rfl⟩ := List.mem_map.mp hx
    obtain ⟨g, hg, hgv⟩ := List.mem_map.mp hy
    exact (hnew g hg).1 (hgv ▸ hsub f hf)
  · intro f hf
    rcases List.mem_append.mp hf with h1 | h2
    · exact hmono _ (hsub f h1)
    · exact (hnew f h2).2.1

/-! ## The per-pass step lemmas -/

theorem pass1_step (dl : String → Option String) (pairs : List (String × ValueRecord)) :
    ∀ fields seen,
      PassStep fields seen (pass1 dl pairs fields seen).1 (pass1 dl pairs fields seen).2
        (Prov1 dl pairs) := by
  induction pairs with
  | nil => intro fields seen; exact passStep_refl _ _ _
  | cons p rest ih =>
    intro fields seen
    obtain ⟨k, v⟩ := p
    have hweak : ∀ f, Prov1 dl rest f → Prov1 dl ((k, v) :: rest) f := by
      rintro f ⟨hbl, k2, v2, hmem, hmap, hf⟩
      exact ⟨hbl, k2, v2, List.mem_cons_of_mem _ hmem, hmap, hf⟩
    simp only [pass1]
    cases hmap : mapToPiiType (normalizeKey k) with
    | none => exact passStep_weaken hweak (ih fields seen)
    | some piiType =>
      dsimp only
      split_ifs with hcond
      · obtain ⟨hnotin, hbl⟩ := hcond
        refine passStep_emit (buildField piiType v) hnotin ?_
          (passStep_weaken hweak (ih _ _))
        exact ⟨hbl, k, v, List.mem_cons_self _ _, hmap, rfl⟩
      · exact passStep_weaken hweak (ih fields seen)

theorem pass2_step (dl : String → Option String) (pairs : List (String × ValueRecord)) :
    ∀ fields seen,
      PassStep fields seen (pass2 dl pairs fields seen).1 (pass2 dl pairs fields seen).2
        (ProvNotBl dl) := by
  induction pairs with
  | nil => intro fields seen; exact passStep_refl _ _ _
  | cons p rest ih =>
    intro fields seen
    obtain ⟨k, v⟩ := p
    simp only [pass2]
    split_ifs with hcond
    · exact ih fields seen
    · push_neg at hcond
      obtain ⟨hnotin, hbl⟩ := hcond
      cases hm : firstRegexMatch (detectLanguage dl v.text) (pyStrip v.text) with
      | none => exact ih fields seen
      | some piiType =>
        dsimp only
        refine passStep_emit (buildField piiType v) hnotin ?_ (ih _ _)
        exact Bool.eq_false_iff.mpr hbl

theorem pass3_step (dl : String → Option String) (blocks : List Block) :
    ∀ fields seen,
      PassStep fields seen (pass3 dl blocks fields seen).1 (pass3 dl blocks fields seen).2
        (ProvNotBl dl) := by
  induction blocks with
  | nil => intro fields seen; exact passStep_refl _ _ _
  | cons b rest ih =>
    intro fields seen
    simp only [pass3]
    split_ifs with hline hcond
    · exact ih fields seen
    · cases hc : classifyStandalone dl (pyStrip (b.text.getD "")) with
      | none => exact ih fields seen
      | some piiType =>
        dsimp only
        push_neg at hcond
        refine passStep_emit _ hcond.1 ?_ (ih _ _)
        exact Bool.eq_false_iff.mpr hcond.2
    · exact ih fields seen

theorem pass4_step (dl : String → Option String) (blocks : List Block) :
    ∀ lines fields seen F2 S2,
      pass4 dl blocks lines fields seen = .ok (F2, S2) →
      PassStep fields seen F2 S2 (ProvNotBl dl) := by
  intro lines
  induction lines with
  | nil =>
    intro fields seen F2 S2 h
    simp only [pass4, Except.ok.injEq, Prod.mk.injEq] at h
    obtain ⟨h1, h2⟩ := h
    subst h1; subst h2
    exact passStep_refl _ _ _
  | cons l rest ih =>
    intro fields seen F2 S2 h
    simp only [pass4] at h
    cases hl : l.text with
    | none => rw [hl] at h; simp at h
    | some t0 =>
      rw [hl] at h
      simp only [getKey_some, ok_bind] at h
      split_ifs at h with hcond
      · exact ih fields seen F2 S2 h
      · cases hc : classifyStandalone dl (pyStrip t0) with
        | none => rw [hc] at h; exact ih fields seen F2 S2 h
        | some piiType =>
          rw [hc] at h
          push_neg at hcond
          refine passStep_emit _ hcond.2.1 ?_ (ih _ _ _ _ h)
          exact Bool.eq_false_iff.mpr hcond.2.2

/-- Destructuring a successful run of `detect_pii` into its stages. -/
theorem detectPii_ok_elim {dl : String → Option String} {blocks : List Block}
    {lines : List TessLine} {out : List PiiField}
    (h : detectPii dl blocks lines = .ok out) :
    ∃ pairs st4, extractKeyValuePairs blocks = .ok pairs ∧
      pass4 dl blocks lines
        (pass3 dl blocks
          (pass2 dl pairs (pass1 dl pairs [] []).1 (pass1 dl pairs [] []).2).1
          (pass2 dl pairs (pass1 dl pairs [] []).1 (pass1 dl pairs [] []).2).2).1
        (pass3 dl blocks
          (pass2 dl pairs (pass1 dl pairs [] []).1 (pass1 dl pairs [] []).2).1
          (pass2 dl pairs (pass1 dl pairs [] []).1 (pass1 dl pairs [] []).2).2).2 =
        .ok st4 ∧
      out = st4.1 := by
  unfold detectPii at h
  cases hE : extractKeyValuePairs blocks with
  | error e => rw [hE] at h; simp at h
  | ok pairs =>
    rw [hE] at h
    simp only [ok_bind] at h
    cases hp : pass4 dl blocks lines
        (pass3 dl blocks
          (pass2 dl pairs (pass1 dl pairs [] []).1 (pass1 dl pairs [] []).2).1
          (pass2 dl pairs (pass1 dl pairs [] []).1 (pass1 dl pairs [] []).2).2).1
        (pass3 dl blocks
          (pass2 dl pairs (pass1 dl pairs [] []).1 (pass1 dl pairs [] []).2).1
          (pass2 dl pairs (pass1 dl pairs [] []).1 (pass1 dl pairs [] []).2).2).2 with
    | error e => rw [hp] at h; simp at h
    | ok st4 =>
      rw [hp] at h
      simp only [ok_bind, Except.ok.injEq] at h
      exact ⟨pairs, st4, rfl, hp, h.symm⟩

/-- C1: the list of PII fields returned by `detect_pii` contains no two
fields with the same value text: `seen_values`, empty at call start and
accumulated across all four passes, ensures each emitted text is emitted
only once. -/
theorem detectPii_value_texts_nodup (dl : String → Option String)
    (blocks : List Block) (lines : List TessLine) (out : List PiiField)
    (h : detectPii dl blocks lines = .ok out) :
    (out.map PiiField.value).Nodup := by
  obtain ⟨pairs, st4, hE, hp4, hout⟩ := detectPii_ok_elim h
  obtain ⟨F4, S4⟩ := st4
  have i0 : Inv [] [] := ⟨List.nodup_nil, by simp⟩
  have i1 := inv_step i0 (pass1_step dl pairs [] [])
  have i2 := inv_step i1 (pass2_step dl pairs _ _)
  have i3 := inv_step i2 (pass3_step dl blocks _ _)
  have i4 := inv_step i3 (pass4_step dl blocks lines _ _ F4 S4 hp4)
  rw [hout]
  exact i4.1

/-- C1 witness: a concrete run (Scenario A) whose single output field list
has pairwise distinct value texts. -/
theorem detectPii_value_texts_nodup_witness :
    (([⟨"Name", "John Doe", bbJohn, 99⟩] : List PiiField).map PiiField.value).Nodup :=
  detectPii_value_texts_nodup dl0 blocksName [] [⟨"Name", "John Doe", bbJohn, 99⟩] rfl

/-- C3: no field whose value text contains (case-insensitively, as a
substring) a blacklisted term for its detected language is ever present in
the output of `detect_pii`: `_is_non_pii` is checked, on the exact string
emitted as the value text, before every emission in every pass. -/
theorem detectPii_no_blacklisted_value (dl : String → Option String)
    (blocks : List Block) (lines : List TessLine) (out : List PiiField)
    (h : detectPii dl blocks lines = .ok out) :
    ∀ f ∈ out, isNonPii dl f.value = false := by
  obtain ⟨pairs, st4, hE, hp4, hout⟩ := detectPii_ok_elim h
  obtain ⟨F4, S4⟩ := st4
  have step1 := pass1_step dl pairs [] []
  have step2 := pass2_step dl pairs (pass1 dl pairs [] []).1 (pass1 dl pairs [] []).2
  have step3 := pass3_step dl blocks
    (pass2 dl pairs (pass1 dl pairs [] []).1 (pass1 dl pairs [] []).2).1
    (pass2 dl pairs (pass1 dl pairs [] []).1 (pass1 dl pairs [] []).2).2
  have step4 := pass4_step dl blocks lines _ _ F4 S4 hp4
  have keep1 : ∀ f ∈ (pass1 dl pairs [] []).1, isNonPii dl f.value = false := by
    obtain ⟨rest, hF, _, hnew, _, _⟩ := step1
    intro f hf
    rw [hF] at hf
    rcases List.mem_append.mp hf with h1 | h2
    · simp at h1
    · exact (hnew f h2).2.2.1
  have keep2 : ∀ f ∈ (pass2 dl pairs (pass1 dl pairs [] []).1 (pass1 dl pairs [] []).2).1,
      isNonPii dl f.value = false := by
    obtain ⟨rest, hF, _, hnew, _, _⟩ := step2
    intro f hf
    rw [hF] at hf
    rcases List.mem_append.mp hf with h1 | h2
    · exact keep1 f h1
    · exact (hnew f h2).2.2
  have keep3 : ∀ f ∈ (pass3 dl blocks
      (pass2 dl pairs (pass1 dl pairs [] []).1 (pass1 dl pairs [] []).2).1
      (pass2 dl pairs (pass1 dl pairs [] []).1 (pass1 dl pairs [] []).2).2).1,
      isNonPii dl f.value = false := by
    obtain ⟨rest, hF, _, hnew, _, _⟩ := step3
    intro f hf
    rw [hF] at hf
    rcases List.mem_append.mp hf with h1 | h2
    · exact keep2 f h1
    · exact (hnew f h2).2.2
  obtain ⟨rest, hF, _, hnew, _, _⟩ := step4
  intro f hf
  rw [hout, hF] at hf
  rcases List.mem_append.mp hf with h1 | h2
  · exact keep3 f h1
  · exact (hnew f h2).2.2

/-- C3 witness: a concrete run (Scenario B, the standalone phone line)
whose output field is not blacklisted. -/
theorem detectPii_no_blacklisted_value_witness :
    isNonPii dl0 (PiiField.value ⟨"Phone Number", "9876543210", BBox.empty, 0⟩) = false :=
  detectPii_no_blacklisted_value dl0 [mkLine "9876543210"] []
    [⟨"Phone Number", "9876543210", BBox.empty, 0⟩] rfl
    ⟨"Phone Number", "9876543210", BBox.empty, 0⟩ (List.mem_singleton.mpr rfl)

/-- Pass-1 coverage: a pair whose normalized key maps to a category and
whose value text is not blacklisted leaves its value text in `seen_values`
when Pass 1 finishes. -/
theorem pass1_cov (dl : String → Option String) :
    ∀ (pairs : List (String × ValueRecord)) fields seen (k : String) (v : ValueRecord)
      (cat : String),
      (k, v) ∈ pairs → mapToPiiType (normalizeKey k) = some cat →
      isNonPii dl v.text = false →
      v.text ∈ (pass1 dl pairs fields seen).2 := by
  intro pairs
  induction pairs with
  | nil => intro fields seen k v cat hmem; simp at hmem
  | cons p rest ih =>
    intro fields seen k v cat hmem hcat hbl
    obtain ⟨k0, v0⟩ := p
    rcases List.mem_cons.mp hmem with heq | htail
    · obtain ⟨hk, hv⟩ := Prod.mk.injEq .. ▸ heq
      subst hk; subst hv
      simp only [pass1, hcat]
      split_ifs with hcond
      · obtain ⟨rest2, _, hmono, _, _, _⟩ := pass1_step dl rest
          (fields ++ [buildField cat v]) (v.text :: seen)
        exact hmono v.text (List.mem_cons_self _ _)
      · rw [not_and_or] at hcond
        rcases hcond with hin | hbl2
        · rw [not_not] at hin
          obtain ⟨rest2, _, hmono, _, _, _⟩ := pass1_step dl rest fields seen
          exact hmono v.text hin
        · exact absurd hbl hbl2
    · simp only [pass1]
      cases hmap : mapToPiiType (normalizeKey k0) with
      | none => exact ih fields seen k v cat htail hcat hbl
      | some piiType =>
        dsimp only
        split_ifs with hcond
        · exact ih _ _ k v cat htail hcat hbl
        · exact ih fields seen k v cat htail hcat hbl

/-- C5: a key-value pair whose normalized key matches a key alias and whose
value text also matches a regex category is emitted (once Pass 1 has run)
with a Pass-1 key-alias category: some output field carries that value
text, any such field is identical, and every output field with that value
text gets its category from `_map_to_pii_type` on the normalized key of a
key-value pair with the same value text — never from the Pass-2 regexes. -/
theorem pass1_category_priority (dl : String → Option String)
    (blocks : List Block) (lines : List TessLine) (out : List PiiField)
    (pairs : List (String × ValueRecord)) (k : String) (v : ValueRecord)
    (cat rcat : String)
    (hok : detectPii dl blocks lines = .ok out)
    (hpairs : extractKeyValuePairs blocks = .ok pairs)
    (hmem : (k, v) ∈ pairs)
    (hcat : mapToPiiType (normalizeKey k) = some cat)
    (hregex : firstRegexMatch (detectLanguage dl v.text) (pyStrip v.text) = some rcat)
    (hbl : isNonPii dl v.text = false) :
    (∃ f ∈ out, f.value = v.text) ∧
    (∀ f1 ∈ out, ∀ f2 ∈ out, f1.value = v.text → f2.value = v.text → f1 = f2) ∧
    (∀ f ∈ out, f.value = v.text →
      ∃ k2 v2, (k2, v2) ∈ pairs ∧ v2.text = v.text ∧
        mapToPiiType (normalizeKey k2) = some f.type) := by
  obtain ⟨pairs2, st4, hE, hp4, hout⟩ := detectPii_ok_elim hok
  rw [hE] at hpairs
  have hpp : pairs = pairs2 := by injection hpairs with hpp2; exact hpp2.symm
  subst hpp
  obtain ⟨F4, S4⟩ := st4
  have step1 := pass1_step dl pairs [] []
  have step2 := pass2_step dl pairs (pass1 dl pairs [] []).1 (pass1 dl pairs [] []).2
  have step3 := pass3_step dl blocks
    (pass2 dl pairs (pass1 dl pairs [] []).1 (pass1 dl pairs [] []).2).1
    (pass2 dl pairs (pass1 dl pairs [] []).1 (pass1 dl pairs [] []).2).2
  have step4 := pass4_step dl blocks lines _ _ F4 S4 hp4
  have hcov : v.text ∈ (pass1 dl pairs [] []).2 :=
    pass1_cov dl pairs [] [] k v cat hmem hcat hbl
  -- every pass-1 field comes from an alias-mapped pair
  obtain ⟨rest1, hF1, hmono1, hnew1, hseen1, hnd1⟩ := step1
  -- v.text was never seen before pass 1, so some pass-1 field carries it
  have hfield1 : ∃ f ∈ (pass1 dl pairs [] []).1, f.value = v.text := by
    rcases hseen1 v.text hcov with habs | ⟨f, hf, hfv⟩
    · simp at habs
    · exact ⟨f, by rw [hF1]; simpa using hf, hfv⟩
  obtain ⟨rest2, hF2, hmono2, hnew2, _, _⟩ := step2
  obtain ⟨rest3, hF3, hmono3, hnew3, _, _⟩ := step3
  obtain ⟨rest4, hF4, hmono4, hnew4, _, _⟩ := step4
  -- the final output decomposes into the four blocks of new fields
  have houtdec : out = (pass1 dl pairs [] []).1 ++ rest2 ++ rest3 ++ rest4 := by
    rw [hout]
    show F4 = _
    rw [hF4, hF3, hF2]
  -- fields of passes 2-4 cannot carry v.text, because it is seen from pass 1 on
  have hseen2 : v.text ∈ (pass2 dl pairs (pass1 dl pairs [] []).1
      (pass1 dl pairs [] []).2).2 := hmono2 _ hcov
  have hseen3 : v.text ∈ (pass3 dl blocks
      (pass2 dl pairs (pass1 dl pairs [] []).1 (pass1 dl pairs [] []).2).1
      (pass2 dl pairs (pass1 dl pairs [] []).1 (pass1 dl pairs [] []).2).2).2 :=
    hmono3 _ hseen2
  have honly1 : ∀ f ∈ out, f.value = v.text → f ∈ (pass1 dl pairs [] []).1 := by
    intro f hf hfv
    rw [houtdec] at hf
    rcases List.mem_append.mp hf with hf123 | hfr4
    · rcases List.mem_append.mp hf123 with hf12 | hfr3
      · rcases List.mem_append.mp hf12 with hf1 | hfr2
        · exact hf1
        · exact absurd (hfv ▸ hcov) (hnew2 f hfr2).1
      · exact absurd (hfv ▸ hseen2) (hnew3 f hfr3).1
    · exact absurd (hfv ▸ hseen3) (hnew4 f hfr4).1
  have hmemout : ∀ f ∈ (pass1 dl pairs [] []).1, f ∈ out := by
    intro f hf
    rw [houtdec]
    exact List.mem_append_left _ (List.mem_append_left _ (List.mem_append_left _ hf))
  refine ⟨?_, ?_, ?_⟩
  · obtain ⟨f, hf, hfv⟩ := hfield1
    exact ⟨f, hmemout f hf, hfv⟩
  · -- uniqueness from the pass-1 nodup block (pass-1 starts from empty fields)
    intro f1 hf1 f2 hf2 hv1 hv2
    have e1 := honly1 f1 hf1 hv1
    have e2 := honly1 f2 hf2 hv2
    rw [hF1] at e1 e2
    simp only [List.nil_append] at e1 e2
    have : f1.value = f2.value := by rw [hv1, hv2]
    exact List.inj_on_of_nodup_map hnd1 e1 e2 this
  · intro f hf hfv
    have e := honly1 f hf hfv
    rw [hF1] at e
    simp only [List.nil_append] at e
    obtain ⟨_, _, hbl2, k2, v2, hmem2, hmap2, hfeq⟩ := hnew1 f e
    refine ⟨k2, v2, hmem2, ?_, hmap2⟩
    rw [hfeq] at hfv
    exact hfv

/-- C5 witness: Scenario A, where the key `name` maps by alias to `Name`
and the value `John Doe` would also match the Name regex; some emitted
field carries that value text (and by the theorem it is the Pass-1 one). -/
theorem pass1_category_priority_witness :
    ∃ f ∈ ([⟨"Name", "John Doe", bbJohn, 99⟩] : List PiiField),
      f.value = vrJohn.text :=
  (pass1_category_priority dl0 blocksName [] [⟨"Name", "John Doe", bbJohn, 99⟩]
    [("name", vrJohn)] "name" vrJohn "Name" "Name"
    rfl rfl (List.mem_singleton.mpr rfl) rfl rfl rfl).1

/-! ## C2: totality under well-formed inputs, and the raising inputs -/

theorem wordTextFold_ok (cid : String) :
    ∀ (bs : List Block) (acc : String), BlocksWF bs →
      ∃ t, wordTextFold cid bs acc = .ok t := by
  intro bs
  induction bs with
  | nil => intro acc _; exact ⟨acc, rfl⟩
  | cons b rest ih =>
    intro acc hwf
    have hb := hwf b (List.mem_cons_self _ _)
    have hrest : BlocksWF rest := fun b2 h2 => hwf b2 (List.mem_cons_of_mem _ h2)
    obtain ⟨bid, hbid⟩ := Option.isSome_iff_exists.mp hb.1
    obtain ⟨bt, hbt⟩ := Option.isSome_iff_exists.mp hb.2.1
    simp only [wordTextFold, hbid, getKey_some, ok_bind]
    split_ifs with h1
    · simp only [hbt, getKey_some, ok_bind]
      split_ifs with h2
      · have htext : b.text.isSome = true := hb.2.2.2.1 (by rw [hbt, h2])
        obtain ⟨tx, htx⟩ := Option.isSome_iff_exists.mp htext
        simp only [htx, getKey_some, ok_bind]
        exact ih _ hrest
      · exact ih _ hrest
    · exact ih _ hrest

theorem childIdsFold_ok (allBlocks : List Block) (hwf : BlocksWF allBlocks) :
    ∀ (ids : List String) (acc : String),
      ∃ t, childIdsFold allBlocks ids acc = .ok t := by
  intro ids
  induction ids with
  | nil => intro acc; exact ⟨acc, rfl⟩
  | cons cid rest ih =>
    intro acc
    obtain ⟨t1, ht1⟩ := wordTextFold_ok cid allBlocks acc hwf
    simp only [childIdsFold, ht1, ok_bind]
    exact ih t1

theorem relsFold_ok (allBlocks : List Block) (hwf : BlocksWF allBlocks) :
    ∀ (rels : List Rel) (acc : String), (∀ r ∈ rels, RelWF r) →
      ∃ t, relsFold allBlocks rels acc = .ok t := by
  intro rels
  induction rels with
  | nil => intro acc _; exact ⟨acc, rfl⟩
  | cons rel rest ih =>
    intro acc hrwf
    have hr := hrwf rel (List.mem_cons_self _ _)
    have hrest : ∀ r ∈ rest, RelWF r := fun r h2 => hrwf r (List.mem_cons_of_mem _ h2)
    obtain ⟨rt, hrt⟩ := Option.isSome_iff_exists.mp hr.1
    simp only [relsFold, hrt, getKey_some, ok_bind]
    split_ifs with h1
    · obtain ⟨ids, hids⟩ := Option.isSome_iff_exists.mp hr.2
      simp only [hids, getKey_some, ok_bind]
      obtain ⟨t1, ht1⟩ := childIdsFold_ok allBlocks hwf ids acc
      simp only [ht1, ok_bind]
      exact ih t1 hrest
    · exact ih acc hrest

theorem getBlockText_ok (block : Block) (allBlocks : List Block)
    (hwf : BlocksWF allBlocks) (hb : BlockWF block) :
    ∃ t, getBlockText block allBlocks = .ok t := by
  unfold getBlockText
  cases hrel : block.relationships with
  | none => exact ⟨pyStrip "", rfl⟩
  | some rels =>
    have hrwf : ∀ r ∈ rels, RelWF r := by
      have := hb.2.2.2.2
      rw [hrel] at this
      exact this
    obtain ⟨t, ht⟩ := relsFold_ok allBlocks hwf rels "" hrwf
    exact ⟨pyStrip t, by simp only [ht, ok_bind]⟩

theorem extractLoop1_ok (allBlocks : List Block) (hwf : BlocksWF allBlocks) :
    ∀ (bs : List Block) keys values, BlocksWF bs →
      ∃ kv, extractLoop1 allBlocks bs keys values = .ok kv := by
  intro bs
  induction bs with
  | nil => intro keys values _; exact ⟨(keys, values), rfl⟩
  | cons b rest ih =>
    intro keys values hwf2
    have hb := hwf2 b (List.mem_cons_self _ _)
    have hrest : BlocksWF rest := fun b2 h2 => hwf2 b2 (List.mem_cons_of_mem _ h2)
    obtain ⟨bt, hbt⟩ := Option.isSome_iff_exists.mp hb.2.1
    simp only [extractLoop1, hbt, getKey_some, ok_bind]
    by_cases h1 : bt = "KEY_VALUE_SET"
    · rw [if_pos h1]
      have hets : b.entityTypes.isSome = true := hb.2.2.1 (by rw [hbt, h1])
      obtain ⟨ets, hets2⟩ := Option.isSome_iff_exists.mp hets
      simp only [hets2, getKey_some, ok_bind]
      by_cases h2 : ets.contains "KEY" = true
      · rw [if_pos h2]
        obtain ⟨t, ht⟩ := getBlockText_ok b allBlocks hwf hb
        obtain ⟨bid, hbid⟩ := Option.isSome_iff_exists.mp hb.1
        simp only [ht, ok_bind, hbid, getKey_some]
        exact ih _ _ hrest
      · rw [if_neg h2]
        by_cases h3 : ets.contains "VALUE" = true
        · rw [if_pos h3]
          obtain ⟨t, ht⟩ := getBlockText_ok b allBlocks hwf hb
          obtain ⟨bid, hbid⟩ := Option.isSome_iff_exists.mp hb.1
          simp only [ht, ok_bind, hbid, getKey_some]
          exact ih _ _ hrest
        · rw [if_neg h3]
          exact ih _ _ hrest
    · rw [if_neg h1]
      exact ih _ _ hrest

theorem loop2Ids_ok (keys : List (String × String)) (values : List (String × ValueRecord))
    (b : Block) (hb : b.id.isSome = true) :
    ∀ (ids : List String) pairs, ∃ p2, loop2Ids keys values b ids pairs = .ok p2 := by
  intro ids
  induction ids with
  | nil => intro pairs; exact ⟨pairs, rfl⟩
  | cons vid rest ih =>
    intro pairs
    obtain ⟨bid, hbid⟩ := Option.isSome_iff_exists.mp hb
    cases hv : alookup values vid with
    | some v =>
      simp only [loop2Ids, hv, hbid, getKey_some, ok_bind]
      exact ih _
    | none =>
      simp only [loop2Ids, hv]
      exact ih pairs

theorem loop2Rels_ok (keys : List (String × String)) (values : List (String × ValueRecord))
    (b : Block) (hb : b.id.isSome = true) :
    ∀ (rels : List Rel) pairs, (∀ r ∈ rels, RelWF r) →
      ∃ p2, loop2Rels keys values b rels pairs = .ok p2 := by
  intro rels
  induction rels with
  | nil => intro pairs _; exact ⟨pairs, rfl⟩
  | cons rel rest ih =>
    intro pairs hrwf
    have hr := hrwf rel (List.mem_cons_self _ _)
    have hrest : ∀ r ∈ rest, RelWF r := fun r h2 => hrwf r (List.mem_cons_of_mem _ h2)
    obtain ⟨rt, hrt⟩ := Option.isSome_iff_exists.mp hr.1
    simp only [loop2Rels, hrt, getKey_some, ok_bind]
    split_ifs with h1
    · obtain ⟨ids, hids⟩ := Option.isSome_iff_exists.mp hr.2
      simp only [hids, getKey_some, ok_bind]
      obtain ⟨p1, hp1⟩ := loop2Ids_ok keys values b hb ids pairs
      simp only [hp1, ok_bind]
      exact ih p1 hrest
    · exact ih pairs hrest

theorem extractLoop2_ok (keys : List (String × String)) (values : List (String × ValueRecord)) :
    ∀ (bs : List Block) pairs, BlocksWF bs →
      ∃ p2, extractLoop2 keys values bs pairs = .ok p2 := by
  intro bs
  induction bs with
  | nil => intro pairs _; exact ⟨pairs, rfl⟩
  | cons b rest ih =>
    intro pairs hwf
    have hb := hwf b (List.mem_cons_self _ _)
    have hrest : BlocksWF rest := fun b2 h2 => hwf b2 (List.mem_cons_of_mem _ h2)
    obtain ⟨bt, hbt⟩ := Option.isSome_iff_exists.mp hb.2.1
    simp only [extractLoop2, hbt, getKey_some, ok_bind]
    by_cases h1 : bt = "KEY_VALUE_SET"
    · rw [if_pos h1]
      have hets : b.entityTypes.isSome = true := hb.2.2.1 (by rw [hbt, h1])
      obtain ⟨ets, hets2⟩ := Option.isSome_iff_exists.mp hets
      simp only [hets2, getKey_some, ok_bind]
      by_cases h2 : ets.contains "KEY" = true
      · rw [if_pos h2]
        cases hrel : b.relationships with
        | none => exact ih pairs hrest
        | some rels =>
          have hrwf : ∀ r ∈ rels, RelWF r := by
            have := hb.2.2.2.2
            rw [hrel] at this
            exact this
          obtain ⟨p1, hp1⟩ := loop2Rels_ok keys values b hb.1 rels pairs hrwf
          simp only [hp1, ok_bind]
          exact ih p1 hrest
      · rw [if_neg h2]
        exact ih pairs hrest
    · rw [if_neg h1]
      exact ih pairs hrest

theorem extractKeyValuePairs_ok (blocks : List Block) (hwf : BlocksWF blocks) :
    ∃ pairs, extractKeyValuePairs blocks = .ok pairs := by
  obtain ⟨kv, hkv⟩ := extractLoop1_ok blocks hwf blocks [] [] hwf
  obtain ⟨pairs, hp⟩ := extractLoop2_ok kv.1 kv.2 blocks [] hwf
  exact ⟨pairs, by simp only [extractKeyValuePairs, hkv, ok_bind, hp]⟩

theorem pass4_ok (dl : String → Option String) (blocks : List Block) :
    ∀ (lines : List TessLine) fields seen, LinesWF lines →
      ∃ st, pass4 dl blocks lines fields seen = .ok st := by
  intro lines
  induction lines with
  | nil => intro fields seen _; exact ⟨(fields, seen), rfl⟩
  | cons l rest ih =>
    intro fields seen hwf
    have hl := hwf l (List.mem_cons_self _ _)
    have hrest : LinesWF rest := fun l2 h2 => hwf l2 (List.mem_cons_of_mem _ h2)
    obtain ⟨t0, ht0⟩ := Option.isSome_iff_exists.mp hl
    simp only [pass4, ht0, getKey_some, ok_bind]
    split_ifs with h1
    · exact ih fields seen hrest
    · cases hc : classifyStandalone dl (pyStrip t0) with
      | none => exact ih fields seen hrest
      | some piiType => exact ih _ _ hrest

/-- C2 (amended): `detect_pii` returns a (possibly empty) field list and
never raises, provided the structural keys are present: every block has
`Id` and `BlockType`, every `KEY_VALUE_SET` block has `EntityTypes`, every
`WORD` block has `Text`, every relationship has `Type` and `Ids`, and
every secondary line has `text`.  Missing `Geometry`, `Confidence`,
`Relationships`, `bounding_box` and `confidence` degrade to skip or
default values rather than aborting. -/
theorem detectPii_ok_of_wellformed (dl : String → Option String)
    (blocks : List Block) (lines : List TessLine)
    (hblocks : BlocksWF blocks) (hlines : LinesWF lines) :
    ∃ out, detectPii dl blocks lines = .ok out := by
  obtain ⟨pairs, hpairs⟩ := extractKeyValuePairs_ok blocks hblocks
  obtain ⟨st4, hst4⟩ := pass4_ok dl blocks lines
    (pass3 dl blocks
      (pass2 dl pairs (pass1 dl pairs [] []).1 (pass1 dl pairs [] []).2).1
      (pass2 dl pairs (pass1 dl pairs [] []).1 (pass1 dl pairs [] []).2).2).1
    (pass3 dl blocks
      (pass2 dl pairs (pass1 dl pairs [] []).1 (pass1 dl pairs [] []).2).1
      (pass2 dl pairs (pass1 dl pairs [] []).1 (pass1 dl pairs [] []).2).2).2 hlines
  exact ⟨st4.1, by simp only [detectPii, hpairs, ok_bind, hst4]⟩

/-- C2 counterexample: on the block `{}` (missing `BlockType`) the very
first extraction loop raises `KeyError`, and on a line `{}` (missing
`text`) Pass 4 raises `KeyError`; `detect_pii` does not return a field
list for every malformed input. -/
theorem detectPii_raises_on_missing_keys :
    detectPii dl0 [emptyBlock] [] = .error "KeyError: BlockType" ∧
    detectPii dl0 [] [⟨none, none, none⟩] = .error "KeyError: text" :=
  ⟨rfl, rfl⟩

/-- C2 witness: a concrete well-formed input on which the amended theorem
yields a successful run. -/
theorem detectPii_ok_of_wellformed_witness :
    ∃ out, detectPii dl0 blocksName [tessJane] = .ok out :=
  detectPii_ok_of_wellformed dl0 blocksName [tessJane] (by decide) (by decide)

/-! ## C4: the standalone-line cascade -/

/-- C4 counterexample: the line `ab123456789012cd` has a digit-only
projection of exactly 12 digits, yet the cascade classifies it as nothing
(the national-ID regex needs word boundaries around the digits), so
`detect_pii` emits no field at all — the claimed rule "a projection of
exactly 12 digits yields the national ID category" is not what the code
does. -/
theorem twelve_digit_projection_not_sufficient :
    (digitsOnly "ab123456789012cd").length = 12 ∧
    classifyStandalone dl0 "ab123456789012cd" = none ∧
    detectPii dl0 [mkLine "ab123456789012cd"] [] = .ok [] :=
  ⟨rfl, rfl, rfl⟩

/-- C4 (amended): the Pass-3 cascade classifies a line by: a digit-only
projection of exactly 10 digits with leading digit in `{7, 8, 9}` gives
Phone Number; otherwise the national-ID regex (which itself demands the 12
digits, or the three 4-digit groups, to stand at word boundaries in the raw
text), the email regex, the date-of-birth regex, the language-aware gender
regex and the language-aware name regex are tried in that order and the
first match wins; in particular the standalone line `123456789012` yields
exactly one field of the national-ID category. -/
theorem classifyStandalone_cascade :
    (∀ (dl : String → Option String) (text : String),
      classifyStandalone dl text = standaloneCascadeSpec dl text) ∧
    detectPii dl0 [mkLine "123456789012"] [] =
      .ok [⟨"Aadhaar Number", "123456789012", BBox.empty, 0⟩] :=
  ⟨fun _ _ => rfl, rfl⟩

/-! ## C6: the Pass-4 hybrid geometry override -/

/-- C6: for a classified, unseen, non-blacklisted Tesseract line, Pass 4
emits exactly one field; when the first Textract `LINE` block with the
same stripped text exists and carries geometry and confidence, the field
takes them; when no such block exists, the field keeps the secondary
engine's own geometry and confidence (Scenario D). -/
theorem pass4_hybrid_override (dl : String → Option String)
    (blocks : List Block) (l : TessLine) (fields : List PiiField)
    (seen : List String) (t0 cat : String)
    (htext : l.text = some t0)
    (hskip : ¬(pyStrip t0 = "" ∨ pyStrip t0 ∈ seen ∨ isNonPii dl (pyStrip t0) = true))
    (hcls : classifyStandalone dl (pyStrip t0) = some cat) :
    (∀ b g c,
      blocks.find? (fun b2 =>
          b2.blockType == some "LINE" && pyStrip (b2.text.getD "") == pyStrip t0) = some b →
      b.geometry = some g → b.confidence = some c →
      pass4 dl blocks [l] fields seen =
        .ok (fields ++ [⟨cat, pyStrip t0, g, c⟩], pyStrip t0 :: seen)) ∧
    (blocks.find? (fun b2 =>
        b2.blockType == some "LINE" && pyStrip (b2.text.getD "") == pyStrip t0) = none →
      pass4 dl blocks [l] fields seen =
        .ok (fields ++
          [⟨cat, pyStrip t0, l.boundingBox.getD BBox.empty, l.confidence.getD 0⟩],
          pyStrip t0 :: seen)) := by
  constructor
  · intro b g c hfind hg hc
    simp only [pass4, htext, getKey_some, ok_bind, if_neg hskip, hcls]
    simp only [tesseractLineGeom, hfind, hg, hc, Option.getD_some]
  · intro hfind
    simp only [pass4, htext, getKey_some, ok_bind, if_neg hskip, hcls]
    simp only [tesseractLineGeom, hfind]

/-- C6 witness: the override applied to a primary `LINE` block matching
`jane@example.com`, plus (Scenario D through the whole of `detect_pii`) the
same line with no matching primary block keeping its own geometry. -/
theorem pass4_hybrid_override_witness :
    (pass4 dl0 [blockLineJane] [tessJane] [] [] =
      .ok ([] ++ [⟨"Email Address", pyStrip "jane@example.com", bbPrimary, 97⟩],
        pyStrip "jane@example.com" :: [])) ∧
    detectPii dl0 [] [tessJane] =
      .ok [⟨"Email Address", "jane@example.com", bbJane, 55⟩] :=
  ⟨(pass4_hybrid_override dl0 [blockLineJane] tessJane [] []
      "jane@example.com" "Email Address" rfl (by decide) rfl).1
    blockLineJane bbPrimary 97 rfl rfl rfl, rfl⟩

/-! ## C7: geometry rejection in `mask_image` is exactly the stated
condition, and local to the field -/

/-- C7: a field is skipped by `mask_image` exactly when its box is absent
or incomplete, or the rectified pixel rectangle has `w ≤ 0`, `h ≤ 0`,
`x < 0`, `y < 0`, `x + w > W` or `y + h > H` (in blur mode the
empty-region guard never fires beyond these conditions); and a rejected
field is skipped locally: deleting it from the field list leaves the
masked rectangles of all other fields unchanged. -/
theorem maskImage_skip_iff_and_local :
    (∀ (mt : String) (W H : Int) (f : PiiField),
      (f.boundingBox.left = none ∨ f.boundingBox.top = none ∨
       f.boundingBox.width = none ∨ f.boundingBox.height = none) →
      fieldRect mt W H f = none) ∧
    (∀ (mt : String) (W H : Int) (f : PiiField) (l t bw bh : Rat),
      f.boundingBox = ⟨some l, some t, some bw, some bh⟩ →
      (fieldRect mt W H f = none ↔
        (scaleTrunc l W < 0 ∨ scaleTrunc t H < 0 ∨
         scaleTrunc bw W ≤ 0 ∨ scaleTrunc bh H ≤ 0 ∨
         scaleTrunc l W + scaleTrunc bw W > W ∨
         scaleTrunc t H + scaleTrunc bh H > H))) ∧
    (∀ (mt : String) (W H : Int) (l1 : List PiiField) (f : PiiField) (l2 : List PiiField),
      fieldRect mt W H f = none →
      maskImage mt W H (l1 ++ f :: l2) = maskImage mt W H (l1 ++ l2)) := by
  refine ⟨?_, ?_, ?_⟩
  · intro mt W H f hmiss
    unfold fieldRect
    rcases hmiss with h | h | h | h <;> rw [h] <;>
      cases f.boundingBox.left <;> cases f.boundingBox.top <;>
      cases f.boundingBox.width <;> cases f.boundingBox.height <;> rfl
  · intro mt W H f l t bw bh hbox
    unfold fieldRect
    rw [hbox]
    dsimp only
    constructor
    · intro hnone
      by_contra hcond
      rw [if_neg hcond] at hnone
      have hcond2 := hcond
      push_neg at hcond2
      obtain ⟨hx, hy, hw, hh, hxw, hyh⟩ := hcond2
      rw [if_neg ?_] at hnone
      · exact Option.some_ne_none _ hnone
      · rintro ⟨-, hroi⟩
        rcases hroi with hr | hr
        · rw [min_eq_left hyh] at hr
          omega
        · rw [min_eq_left hxw] at hr
          omega
    · intro hcond
      rw [if_pos hcond]
  · intro mt W H l1 f l2 hnone
    simp only [maskImage, List.filterMap_append, List.filterMap_cons, hnone]

/-- C7 witness: Scenario F (`x + w = 110 > 100`, rejected) via the
iff, and the locality instance: removing the zero-width field from a
three-field list leaves the other two rectangles untouched. -/
theorem maskImage_skip_iff_and_local_witness :
    (fieldRect "rectangle" 100 100 fieldScenF = none) ∧
    maskImage "rectangle" 100 100 ([fieldOkA] ++ fieldZeroW :: [fieldOkB]) =
      maskImage "rectangle" 100 100 ([fieldOkA] ++ [fieldOkB]) :=
  ⟨(maskImage_skip_iff_and_local.2.1 "rectangle" 100 100 fieldScenF
      half half threeFifths tenth rfl).mpr (by decide),
    maskImage_skip_iff_and_local.2.2 "rectangle" 100 100 [fieldOkA] fieldZeroW [fieldOkB]
      (by decide)⟩

/-! ## C8: the key-to-pair map is built by in-order insertion with
last-write-wins -/

theorem alookup_dinsert_self {α : Type} (l : List (String × α)) (k : String) (v : α) :
    alookup (dinsert l k v) k = some v := by
  induction l with
  | nil => simp [alookup, dinsert, List.find?]
  | cons p rest ih =>
    obtain ⟨k0, v0⟩ := p
    by_cases h : k0 = k
    · simp [alookup, dinsert, h, List.find?]
    · simp only [dinsert, if_neg h]
      simp only [alookup, List.find?] at ih ⊢
      rw [show ((k0, v0).1 == k) = false from beq_eq_false_iff_ne.mpr h]
      exact ih

theorem alookup_dinsert_ne {α : Type} (l : List (String × α)) (k k2 : String) (v : α)
    (h : k2 ≠ k) : alookup (dinsert l k v) k2 = alookup l k2 := by
  induction l with
  | nil =>
    simp only [alookup, dinsert, List.find?]
    rw [show ((k, v).1 == k2) = false from beq_eq_false_iff_ne.mpr (Ne.symm h)]
  | cons p rest ih =>
    obtain ⟨k0, v0⟩ := p
    by_cases h0 : k0 = k
    · subst h0
      simp only [dinsert, if_pos rfl]
      simp only [alookup, List.find?]
      rw [show ((k0, v).1 == k2) = false from beq_eq_false_iff_ne.mpr (Ne.symm h)]
    · simp only [dinsert, if_neg h0]
      simp only [alookup, List.find?] at ih ⊢
      cases hbe : ((k0, v0).1 == k2) with
      | true => rfl
      | false => exact ih

/-- Folding a write sequence by dict assignment realizes exactly the
last-write-wins lookup. -/
theorem foldl_dinsert_lookup (ws : List (String × ValueRecord)) :
    ∀ (pairs : List (String × ValueRecord)) (k : String),
      alookup (ws.foldl (fun p w => dinsert p w.1 w.2) pairs) k =
        match lastWrite ws k with
        | some v => some v
        | none => alookup pairs k := by
  induction ws with
  | nil => intro pairs k; rfl
  | cons w rest ih =>
    intro pairs k
    simp only [List.foldl_cons, lastWrite]
    rw [ih]
    cases hlast : lastWrite rest k with
    | some v => rfl
    | none =>
      by_cases hk : w.1 = k
      · rw [if_pos hk, hk, alookup_dinsert_self]
      · rw [if_neg hk, alookup_dinsert_ne _ _ _ _ (fun h2 => hk h2.symm)]

theorem loop2Ids_writes (keys : List (String × String))
    (values : List (String × ValueRecord)) (b : Block) :
    ∀ (ids : List String) pairs pairs2,
      loop2Ids keys values b ids pairs = .ok pairs2 →
      pairs2 = (ids.filterMap (fun vid =>
          (alookup values vid).map
            (fun v => ((alookup keys (b.id.getD "")).getD "", v)))).foldl
        (fun p w => dinsert p w.1 w.2) pairs := by
  intro ids
  induction ids with
  | nil =>
    intro pairs pairs2 h
    simp only [loop2Ids, Except.ok.injEq] at h
    simp [h]
  | cons vid rest ih =>
    intro pairs pairs2 h
    simp only [loop2Ids] at h
    cases hv : alookup values vid with
    | some v =>
      rw [hv] at h
      cases hbid : b.id with
      | none => rw [hbid] at h; simp at h
      | some bid =>
        rw [hbid] at h
        simp only [getKey_some, ok_bind] at h
        have e1 := ih _ _ h
        simp only [hbid, Option.getD_some] at e1
        simp only [List.filterMap_cons, hv, Option.map_some', hbid, Option.getD_some,
          List.foldl_cons]
        exact e1
    | none =>
      rw [hv] at h
      simp only [List.filterMap_cons, hv, Option.map_none']
      exact ih _ _ h

theorem loop2Rels_writes (keys : List (String × String))
    (values : List (String × ValueRecord)) (b : Block) :
    ∀ (rels : List Rel) pairs pairs2,
      loop2Rels keys values b rels pairs = .ok pairs2 →
      pairs2 = (rels.flatMap (fun rel =>
          if rel.rtype = some "VALUE" then
            (rel.ids.getD []).filterMap (fun vid =>
              (alookup values vid).map
                (fun v => ((alookup keys (b.id.getD "")).getD "", v)))
          else [])).foldl (fun p w => dinsert p w.1 w.2) pairs := by
  intro rels
  induction rels with
  | nil =>
    intro pairs pairs2 h
    simp only [loop2Rels, Except.ok.injEq] at h
    simp [h]
  | cons rel rest ih =>
    intro pairs pairs2 h
    simp only [loop2Rels] at h
    cases hrt : rel.rtype with
    | none => rw [hrt] at h; simp at h
    | some rt =>
      rw [hrt] at h
      simp only [getKey_some, ok_bind] at h
      by_cases h1 : rt = "VALUE"
      · rw [if_pos h1] at h
        cases hids : rel.ids with
        | none => rw [hids] at h; simp at h
        | some ids =>
          rw [hids] at h
          simp only [getKey_some, ok_bind] at h
          cases hp1 : loop2Ids keys values b ids pairs with
          | error e => rw [hp1] at h; simp at h
          | ok p1 =>
            rw [hp1] at h
            simp only [ok_bind] at h
            have e1 := loop2Ids_writes keys values b ids pairs p1 hp1
            have e2 := ih p1 pairs2 h
            subst h1
            simp only [List.flatMap_cons]
            rw [if_pos hrt, hids]
            simp only [Option.getD_some, List.foldl_append]
            rw [e2, e1]
      · rw [if_neg h1] at h
        have e2 := ih pairs pairs2 h
        simp only [List.flatMap_cons, hrt]
        rw [if_neg (fun h2 => h1 (by injection h2))]
        simp only [List.nil_append]
        exact e2

theorem extractLoop2_writes (keys : List (String × String))
    (values : List (String × ValueRecord)) :
    ∀ (bs : List Block) pairs pairs2,
      extractLoop2 keys values bs pairs = .ok pairs2 →
      pairs2 = (allWrites keys values bs).foldl (fun p w => dinsert p w.1 w.2) pairs := by
  intro bs
  induction bs with
  | nil =>
    intro pairs pairs2 h
    simp only [extractLoop2, Except.ok.injEq] at h
    simp [allWrites, h]
  | cons b rest ih =>
    intro pairs pairs2 h
    simp only [extractLoop2] at h
    have hall : allWrites keys values (b :: rest) =
        blockWrites keys values b ++ allWrites keys values rest := by
      simp [allWrites]
    cases hbt : b.blockType with
    | none => rw [hbt] at h; simp at h
    | some bt =>
      rw [hbt] at h
      simp only [getKey_some, ok_bind] at h
      by_cases h1 : bt = "KEY_VALUE_SET"
      · rw [if_pos h1] at h
        cases hets : b.entityTypes with
        | none => rw [hets] at h; simp at h
        | some ets =>
          rw [hets] at h
          simp only [getKey_some, ok_bind] at h
          by_cases h2 : ets.contains "KEY" = true
          · rw [if_pos h2] at h
            cases hrel : b.relationships with
            | none =>
              rw [hrel] at h
              have e2 := ih pairs pairs2 h
              rw [hall]
              have hbw : blockWrites keys values b = [] := by
                unfold blockWrites
                rw [if_pos ⟨by rw [hbt, h1], by rw [hets]; simpa using h2⟩]
                rw [hrel]
                rfl
              rw [hbw, List.nil_append]
              exact e2
            | some rels =>
              rw [hrel] at h
              have hm : (loop2Rels keys values b rels pairs >>= fun p2 =>
                  extractLoop2 keys values rest p2) = Except.ok pairs2 := h
              cases hp1 : loop2Rels keys values b rels pairs with
              | error e => rw [hp1] at hm; simp at hm
              | ok p1 =>
                rw [hp1] at hm
                simp only [ok_bind] at hm
                have e1 := loop2Rels_writes keys values b rels pairs p1 hp1
                have e2 := ih p1 pairs2 hm
                rw [hall]
                have hbw : blockWrites keys values b =
                    rels.flatMap (fun rel =>
                      if rel.rtype = some "VALUE" then
                        (rel.ids.getD []).filterMap (fun vid =>
                          (alookup values vid).map
                            (fun v => ((alookup keys (b.id.getD "")).getD "", v)))
                      else []) := by
                  unfold blockWrites
                  rw [if_pos ⟨by rw [hbt, h1], by rw [hets]; simpa using h2⟩]
                  rw [hrel]
                  rfl
                rw [hbw, List.foldl_append]
                rw [e2, e1]
          · rw [if_neg h2] at h
            have e2 := ih pairs pairs2 h
            rw [hall]
            have hbw : blockWrites keys values b = [] := by
              unfold blockWrites
              rw [if_neg ?_]
              rintro ⟨-, hc⟩
              rw [hets] at hc
              simp only [Option.getD_some] at hc
              exact h2 hc
            rw [hbw, List.nil_append]
            exact e2
      · rw [if_neg h1] at h
        have e2 := ih pairs pairs2 h
        rw [hall]
        have hbw : blockWrites keys values b = [] := by
          unfold blockWrites
          rw [if_neg ?_]
          rintro ⟨hc, -⟩
          rw [hbt] at hc
          exact h1 (by injection hc)
        rw [hbw, List.nil_append]
        exact e2

/-- C8: when the extractor succeeds, its key-to-pair map realizes exactly
the in-order insertion of the second-loop write sequence with
last-write-wins: for every key text whose last write (in source block
order) carries record `r`, the map holds `r` — in particular, when two or
more `KEY` blocks resolve to the same normalized key text, the map holds
the value record written by the last of them. -/
theorem extract_pairs_last_write_wins (blocks : List Block)
    (keys : List (String × String)) (values : List (String × ValueRecord))
    (pairs : List (String × ValueRecord)) (k : String) (r : ValueRecord)
    (h1 : extractLoop1 blocks blocks [] [] = .ok (keys, values))
    (h2 : extractKeyValuePairs blocks = .ok pairs)
    (hlast : lastWrite (allWrites keys values blocks) k = some r) :
    alookup pairs k = some r := by
  unfold extractKeyValuePairs at h2
  rw [h1] at h2
  simp only [ok_bind] at h2
  have e := extractLoop2_writes keys values blocks [] pairs h2
  rw [e, foldl_dinsert_lookup, hlast]

/-- C8 witness: two `KEY` blocks both normalizing to the key text `name`,
linked to `Alice` then `Bob`; the extracted map holds `Bob`, the record of
the last such key in source order. -/
theorem extract_pairs_last_write_wins_witness :
    extractLoop1 blocksDupKeys blocksDupKeys [] [] =
      .ok ([("k1", "name"), ("k2", "name")],
        [("v1", ⟨"Alice", BBox.empty, 50⟩), ("v2", vrBob)]) ∧
    extractKeyValuePairs blocksDupKeys = .ok [("name", vrBob)] ∧
    alookup [("name", vrBob)] "name" = some vrBob :=
  ⟨rfl, rfl,
    extract_pairs_last_write_wins blocksDupKeys
      [("k1", "name"), ("k2", "name")]
      [("v1", ⟨"Alice", BBox.empty, 50⟩), ("v2", vrBob)]
      [("name", vrBob)] "name" vrBob rfl rfl rfl⟩

/-! ## C9: key-alias matching is exact string equality -/

/-- C9: `_map_to_pii_type` maps a normalized key to a category exactly when
the key is string-equal to some alias of the table, lowercased and
stripped; a key that merely contains an alias as a proper substring — such
as `father name`, which contains the alias `name` — maps to no category. -/
theorem mapToPiiType_exact_alias_equality :
    (∀ k : String, (mapToPiiType k).isSome = true ↔
      ∃ al ∈ allAliases, pyStrip (pyLower al) = k) ∧
    pyInStr "name" "father name" = true ∧
    mapToPiiType "father name" = none := by
  refine ⟨?_, rfl, rfl⟩
  intro k
  constructor
  · intro hsome
    unfold mapToPiiType at hsome
    cases hf : PII_KEY_MAPPING.find? (fun entry =>
        entry.2.any (fun la => la.2.any (fun al => pyStrip (pyLower al) == k))) with
    | none => rw [hf] at hsome; simp at hsome
    | some entry =>
      have hmem := List.mem_of_find?_eq_some hf
      have hpred := List.find?_some hf
      obtain ⟨la, hla, hal⟩ := List.any_eq_true.mp hpred
      obtain ⟨al, halmem, heq⟩ := List.any_eq_true.mp hal
      refine ⟨al, ?_, beq_iff_eq.mp heq⟩
      unfold allAliases
      exact List.mem_flatMap.mpr ⟨entry, hmem,
        List.mem_flatMap.mpr ⟨la, hla, halmem⟩⟩
  · rintro ⟨al, halmem, heq⟩
    unfold allAliases at halmem
    obtain ⟨entry, hentry, hin⟩ := List.mem_flatMap.mp halmem
    obtain ⟨la, hla, halmem2⟩ := List.mem_flatMap.mp hin
    have hpred : (fun entry : String × List (String × List String) =>
        entry.2.any (fun la => la.2.any (fun al => pyStrip (pyLower al) == k))) entry
        = true :=
      List.any_eq_true.mpr ⟨la, hla,
        List.any_eq_true.mpr ⟨al, halmem2, beq_iff_eq.mpr heq⟩⟩
    have hfind : (PII_KEY_MAPPING.find? (fun entry =>
        entry.2.any (fun la => la.2.any (fun al =>
          pyStrip (pyLower al) == k)))).isSome = true :=
      List.find?_isSome.mpr ⟨entry, hentry, hpred⟩
    unfold mapToPiiType
    cases hf : PII_KEY_MAPPING.find? (fun entry =>
        entry.2.any (fun la => la.2.any (fun al => pyStrip (pyLower al) == k))) with
    | none => rw [hf] at hfind; simp at hfind
    | some e2 => rfl

/-! ## C10: keyless `KEY` blocks collapse onto the empty key -/

theorem wordTextFold_acc (cid : String) :
    ∀ (bs : List Block) (acc t : String),
      wordTextFold cid bs acc = .ok t →
      (∀ b ∈ bs, b.id = some cid → b.blockType ≠ some "WORD") →
      t = acc := by
  intro bs
  induction bs with
  | nil =>
    intro acc t h _
    simp only [wordTextFold, Except.ok.injEq] at h
    exact h.symm
  | cons b rest ih =>
    intro acc t h hno
    have hrest : ∀ b2 ∈ rest, b2.id = some cid → b2.blockType ≠ some "WORD" :=
      fun b2 h2 => hno b2 (List.mem_cons_of_mem _ h2)
    simp only [wordTextFold] at h
    cases hbid : b.id with
    | none => rw [hbid] at h; simp at h
    | some bid =>
      rw [hbid] at h
      simp only [getKey_some, ok_bind] at h
      by_cases h1 : bid = cid
      · rw [if_pos h1] at h
        cases hbt : b.blockType with
        | none => rw [hbt] at h; simp at h
        | some bt =>
          rw [hbt] at h
          simp only [getKey_some, ok_bind] at h
          by_cases h2 : bt = "WORD"
          · exact absurd (by rw [hbt, h2]) (hno b (List.mem_cons_self _ _) (by rw [hbid, h1]))
          · rw [if_neg h2] at h
            exact ih acc t h hrest
      · rw [if_neg h1] at h
        exact ih acc t h hrest

theorem childIdsFold_acc (blocks : List Block) :
    ∀ (ids : List String) (acc t : String),
      childIdsFold blocks ids acc = .ok t →
      (∀ cid ∈ ids, ∀ b ∈ blocks, b.id = some cid → b.blockType ≠ some "WORD") →
      t = acc := by
  intro ids
  induction ids with
  | nil =>
    intro acc t h _
    simp only [childIdsFold, Except.ok.injEq] at h
    exact h.symm
  | cons cid rest ih =>
    intro acc t h hno
    simp only [childIdsFold] at h
    cases hw : wordTextFold cid blocks acc with
    | error e => rw [hw] at h; simp at h
    | ok acc2 =>
      rw [hw] at h
      simp only [ok_bind] at h
      have hacc2 : acc2 = acc :=
        wordTextFold_acc cid blocks acc acc2 hw
          (fun b hb => hno cid (List.mem_cons_self _ _) b hb)
      rw [hacc2] at h
      exact ih acc t h (fun cid2 h2 => hno cid2 (List.mem_cons_of_mem _ h2))

theorem relsFold_acc (blocks : List Block) :
    ∀ (rels : List Rel) (acc t : String),
      relsFold blocks rels acc = .ok t →
      (∀ rel ∈ rels, rel.rtype = some "CHILD" →
        ∀ cid ∈ rel.ids.getD [], ∀ b ∈ blocks, b.id = some cid →
          b.blockType ≠ some "WORD") →
      t = acc := by
  intro rels
  induction rels with
  | nil =>
    intro acc t h _
    simp only [relsFold, Except.ok.injEq] at h
    exact h.symm
  | cons rel rest ih =>
    intro acc t h hno
    have hrest : ∀ rel2 ∈ rest, rel2.rtype = some "CHILD" →
        ∀ cid ∈ rel2.ids.getD [], ∀ b ∈ blocks, b.id = some cid →
          b.blockType ≠ some "WORD" :=
      fun rel2 h2 => hno rel2 (List.mem_cons_of_mem _ h2)
    simp only [relsFold] at h
    cases hrt : rel.rtype with
    | none => rw [hrt] at h; simp at h
    | some rt =>
      rw [hrt] at h
      simp only [getKey_some, ok_bind] at h
      by_cases h1 : rt = "CHILD"
      · rw [if_pos h1] at h
        cases hids : rel.ids with
        | none => rw [hids] at h; simp at h
        | some ids =>
          rw [hids] at h
          simp only [getKey_some, ok_bind] at h
          cases hc : childIdsFold blocks ids acc with
          | error e => rw [hc] at h; simp at h
          | ok acc2 =>
            rw [hc] at h
            simp only [ok_bind] at h
            have hacc2 : acc2 = acc := by
              refine childIdsFold_acc blocks ids acc acc2 hc ?_
              intro cid hcid b hb hbid
              refine hno rel (List.mem_cons_self _ _) (by rw [hrt, h1]) cid ?_ b hb hbid
              rw [hids]
              simpa using hcid
            rw [hacc2] at h
            exact ih acc t h hrest
      · rw [if_neg h1] at h
        exact ih acc t h hrest

/-- C10: a block with no `CHILD` relation resolving to a `WORD` block gets
the empty text, so every keyless `KEY` block files its linked value under
the single key `""` (all such pairs collapse into one map entry, last
write wins); the empty key never matches a Pass-1 alias after
normalization, while the value still participates in Pass-2 regex
matching — on the concrete graph with two keyless keys, extraction yields
exactly the entry `"" -> a@b.com` and `detect_pii` classifies the value by
the Pass-2 email regex. -/
theorem keyless_key_blocks_collapse :
    (∀ (block : Block) (blocks : List Block),
      (∃ t, getBlockText block blocks = .ok t) →
      NoChildWord block blocks →
      getBlockText block blocks = .ok "") ∧
    mapToPiiType (normalizeKey "") = none ∧
    extractKeyValuePairs blocksBareKeys = .ok [("", vrAB)] ∧
    detectPii dl0 blocksBareKeys [] =
      .ok [⟨"Email Address", "a@b.com", bbV2, 88⟩] := by
  refine ⟨?_, rfl, rfl, rfl⟩
  intro block blocks hok hno
  obtain ⟨t, ht⟩ := hok
  unfold getBlockText at ht ⊢
  cases hrel : block.relationships with
  | none => rfl
  | some rels =>
    rw [hrel] at ht
    have hm : (relsFold blocks rels "" >>= fun t2 =>
        Except.ok (pyStrip t2)) = Except.ok t := ht
    cases hr : relsFold blocks rels "" with
    | error e => rw [hr] at hm; simp at hm
    | ok t2 =>
      have ht2 : t2 = "" := by
        refine relsFold_acc blocks rels "" t2 hr ?_
        intro rel hrelmem hchild cid hcid b hb hbid
        refine hno rel ?_ hchild cid hcid b hb hbid
        rw [hrel]
        simpa using hrelmem
      show (relsFold blocks rels "" >>= fun t3 =>
        Except.ok (pyStrip t3)) = Except.ok ""
      rw [hr, ht2]
      rfl

/-- C10 witness: the first keyless `KEY` block of the concrete graph
resolves to the empty text. -/
theorem keyless_key_blocks_collapse_witness :
    getBlockText blockKeyBare1 blocksBareKeys = .ok "" :=
  keyless_key_blocks_collapse.1 blockKeyBare1 blocksBareKeys ⟨"", rfl⟩ (by decide)

end PiiMask
